import Mathlib

/-!
# Verification of the AGFS shell core (`agfs-shell2` / `pfs-shell`)

A shallow embedding, in Lean 4, of the command-execution core of the
repository's shells:

* `agfs-shell2/agfs_shell2/shell.py` — REPL sentinel handling, variable and
  command-substitution expansion, path resolution, the cd branch and the
  direct streaming bridge of `Shell.execute`;
* `agfs-shell2/agfs_shell2/parser.py` — `CommandParser.parse_pipeline` and
  `CommandParser.parse_redirection`;
* `agfs-shell2/agfs_shell2/pipeline.py`, `process.py`, `builtins.py` — the
  pipeline runtime and the `echo` / `cat` executors;
* `agfs-shell2/agfs_shell2/filesystem.py` — `AGFSFileSystem.write_file`;
* `pfs-shell/pfscli/commands.py` — `CommandHandler._apply_redirections`,
  `_resolve_path`, `_normalize_path`.

Python byte strings and text strings are both modelled as Lean `String`
(the shells treat them as opaque sequences; every operation used is
concatenation, emptiness and equality, which agree on both views).
Python dictionaries keyed by strings are modelled as association lists.
The remote AGFS server is modelled as an association list from absolute
path to file content, plus oracles for the parts of the HTTP contract the
shell observes (write responses).
-/

set_option autoImplicit false

namespace AgfsShell

/-! ## Python string primitives

Helpers mirroring the Python `str` methods the shell sources use.
All real work happens on `List Char`; `String` wrappers are thin.
-/

/-- The characters Python's `str.strip()` removes (ASCII whitespace;
the shell sources only ever strip ASCII text). -/
def isPyWS (c : Char) : Bool :=
  c = ' ' || c = '\t' || c = '\n' || c = '\r' || c = '\x0b' || c = '\x0c'

/-- `str.lstrip()` on a character list. -/
def lstripL (l : List Char) : List Char := l.dropWhile isPyWS

/-- `str.rstrip()` on a character list. -/
def rstripL (l : List Char) : List Char := (l.reverse.dropWhile isPyWS).reverse

/-- Python `str.strip()`. -/
def pyStripL (l : List Char) : List Char := rstripL (lstripL l)

/-- Python `str.strip()` on `String`. -/
def pyStrip (s : String) : String := ⟨pyStripL s.data⟩

/-- Python `str.startswith(pre)`. -/
def pyStartsWith (s pre : String) : Bool := pre.data.isPrefixOf s.data

/-- Python `str.endswith(suf)`. -/
def pyEndsWith (s suf : String) : Bool := suf.data.reverse.isPrefixOf s.data.reverse

/-- Python `str.split(sep)` for a one-character separator, on character
lists: splits at every occurrence, keeping empty pieces
(`'a||b'.split('|') == ['a','','b']`, `''.split('|') == ['']`). -/
def splitChar (sep : Char) : List Char → List (List Char)
  | [] => [[]]
  | c :: cs =>
    if c = sep then [] :: splitChar sep cs
    else
      match splitChar sep cs with
      | [] => [[c]]
      | t :: ts => (c :: t) :: ts

/-- Python `str.split(sep)` on `String`. -/
def pySplitOn (s : String) (sep : Char) : List String :=
  (splitChar sep s.data).map (fun l => ⟨l⟩)

/-- Python `str.split()` (no argument): split on runs of whitespace,
dropping empty pieces. -/
def pySplitWSL : List Char → List (List Char)
  | [] => []
  | c :: cs =>
    if isPyWS c then pySplitWSL cs
    else
      match pySplitWSL cs with
      | [] => [[c]]
      | t :: ts =>
        match cs with
        | [] => [[c]]
        | d :: _ => if isPyWS d then [c] :: t :: ts else (c :: t) :: ts

/-- Python `str.split()` on `String`. -/
def pySplitWS (s : String) : List String := (pySplitWSL s.data).map (fun l => ⟨l⟩)

/-! ## `posixpath.normpath` and `posixpath.join`

`Shell.resolve_path` (agfs-shell2 `shell.py:285-306`) and
`CommandHandler._normalize_path` / `_resolve_path` (pfs-shell
`commands.py:514-535`) both delegate to `os.path.normpath`, which on the
POSIX flavour is:

    initial_slashes = path.startswith('/')
    if initial_slashes and path.startswith('//') and not path.startswith('///'):
        initial_slashes = 2
    comps = path.split('/')
    new_comps = []
    for comp in comps:
        if comp in ('', '.'): continue
        if (comp != '..' or (not initial_slashes and not new_comps)
            or (new_comps and new_comps[-1] == '..')):
            new_comps.append(comp)
        elif new_comps:
            new_comps.pop()
    path = '/'.join(new_comps)
    if initial_slashes:
        path = '/'*initial_slashes + path
    return path or '.'

The accumulator below is kept reversed (`new_comps.reverse`), so the
Python `new_comps[-1]` test becomes a `head?` test and `pop` a `tail`.
-/

/-- The number of initial slashes `normpath` preserves (0, 1 or 2). -/
def initialSlashes (l : List Char) : Nat :=
  if l.take 1 = ['/'] then
    if l.take 2 = ['/', '/'] ∧ l.take 3 ≠ ['/', '/', '/'] then 2 else 1
  else 0

/-- The component loop of `posixpath.normpath`, with the accumulator in
reverse order. -/
def normComps (slashes : Nat) : List (List Char) → List (List Char) → List (List Char)
  | acc, [] => acc.reverse
  | acc, comp :: rest =>
    if comp = [] ∨ comp = ['.'] then normComps slashes acc rest
    else if comp ≠ ['.', '.'] ∨ (slashes = 0 ∧ acc = []) ∨ acc.head? = some ['.', '.'] then
      normComps slashes (comp :: acc) rest
    else
      match acc with
      | [] => normComps slashes [] rest
      | _ :: acc' => normComps slashes acc' rest

/-- `posixpath.normpath` on character lists. -/
def normpathL (l : List Char) : List Char :=
  if l = [] then ['.']
  else
    let k := initialSlashes l
    let nc := normComps k [] (splitChar '/' l)
    let p := List.replicate k '/' ++ List.intercalate ['/'] nc
    if p = [] then ['.'] else p

/-- `os.path.normpath` (POSIX flavour). -/
def normpath (s : String) : String := ⟨normpathL s.data⟩

/-- `os.path.join(a, b)` for two arguments (POSIX flavour). -/
def pyJoin (a b : String) : String :=
  if pyStartsWith b "/" then b
  else if a = "" || pyEndsWith a "/" then a ++ b
  else a ++ "/" ++ b

/-- `Shell.resolve_path` (agfs-shell2 `shell.py:285-306`): empty path
resolves to the cwd, absolute paths are normalized, relative paths are
joined with the cwd and normalized. -/
def resolvePath (cwd path : String) : String :=
  if path = "" then cwd
  else if pyStartsWith path "/" then normpath path
  else normpath (pyJoin cwd path)

/-- `CommandHandler._normalize_path` (pfs-shell `commands.py:514-524`):
`normpath`, then force a leading slash, then map `/.` to `/`. -/
def pfsNormalizePath (path : String) : String :=
  let normalized := normpath path
  let normalized := if pyStartsWith normalized "/" then normalized else "/" ++ normalized
  if normalized = "/." then "/" else normalized

/-- `CommandHandler._resolve_path` (pfs-shell `commands.py:526-535`). -/
def pfsResolvePath (cwd path : String) : String :=
  let resolved :=
    if pyStartsWith path "/" then path
    else if cwd = "/" then "/" ++ path
    else cwd ++ "/" ++ path
  pfsNormalizePath resolved

/-! ### Properties of `normpath` on absolute paths -/

/-- A path component is clean when it is none of `""`, `"."`, `".."` and
contains no slash: exactly the components `normpath` emits for an
absolute input. -/
def CleanComp (x : List Char) : Prop :=
  x ≠ [] ∧ x ≠ ['.'] ∧ x ≠ ['.', '.'] ∧ '/' ∉ x

/-! ## Dictionaries, the session environment and the remote filesystem

Python `dict[str, str]` is modelled as an association list: insertion
replaces in place, new keys are appended (Python preserves insertion
order).  The remote AGFS namespace seen through `pyagfs` is modelled as
such a dictionary from absolute path to file content.
-/

/-- Session environment / generic string dictionary. -/
abbrev Env := List (String × String)

/-- The remote file system: absolute path ↦ content. -/
abbrev RemoteFS := List (String × String)

/-- `d[k]` lookup (first binding wins; `dictSet` keeps keys unique). -/
def dictGet (d : List (String × String)) (k : String) : Option String :=
  (d.find? (fun p => p.1 = k)).map Prod.snd

/-- `d.get(k, dflt)`. -/
def dictGetD (d : List (String × String)) (k dflt : String) : String :=
  (dictGet d k).getD dflt

/-- `d[k] = v`: replace in place, else append. -/
def dictSet (d : List (String × String)) (k v : String) : List (String × String) :=
  if (d.find? (fun p => p.1 = k)).isSome then
    d.map (fun p => if p.1 = k then (k, v) else p)
  else d ++ [(k, v)]

/-! ## `AGFSFileSystem.write_file` (agfs-shell2 `filesystem.py:63-102`)

`write_file(path, data, append)`: in append mode the current remote
content is read first (`client.cat`; a missing file contributes `b''`)
and the concatenation is written back; otherwise the data is written
directly.  The effect of the AGFS `write` operation itself is modelled
from the spec: `write(path, data)` replaces the file's content (§6.3;
the `pyagfs` client is an external collaborator, out of scope).
-/

def writeFile (fs : RemoteFS) (path data : String) (append : Bool) : RemoteFS :=
  if append then
    let existing := dictGetD fs path ""
    dictSet fs path (existing ++ data)
  else
    dictSet fs path data

/-! ## Command metadata

Modelled from the spec: `command_decorators.py` (the `@command`
decorator and `CommandMetadata`) is not under `src/`; §4.4 specifies a
registry mapping each command name to its capability flags, populated by
the declarations visible in `builtins.py`
(`@command(needs_path_resolution=..., supports_streaming=...,
no_pipeline=..., changes_cwd=...)` on `cmd_echo`, `cmd_cat`, `cmd_grep`,
`cmd_ls`, `cmd_cd`, `cmd_mkdir`, `cmd_rm`, `cmd_test`, `cmd_jq`,
`cmd_stat`, …, registered in `BUILTINS` under their user-visible names,
with `[` an alias of `test`). -/

def supportsStreaming (cmd : String) : Bool :=
  cmd = "cat" || cmd = "grep" || cmd = "jq"

/-- Modelled from the spec: see `supportsStreaming`. -/
def needsPathResolution (cmd : String) : Bool :=
  cmd = "cat" || cmd = "ls" || cmd = "cd" || cmd = "mkdir" || cmd = "rm" ||
  cmd = "test" || cmd = "[" || cmd = "stat"

/-- Modelled from the spec: see `supportsStreaming`.  Only `cd` declares
`changes_cwd=True` in `builtins.py`. -/
def changesCwd (cmd : String) : Bool := cmd = "cd"

/-! ## The direct streaming bridge (agfs-shell2 `shell.py:773-815`)

`Shell.execute` special-cases a single streaming-capable stage with no
arguments, a stdout redirection and no pre-fed stdin: local stdin is
read in 8192-byte chunks and each chunk is written remotely at once, the
first write honoring the redirect mode, all subsequent writes appending.
`localStdin` is the chunk sequence `sys.stdin.buffer.read(8192)`
delivers (each chunk non-empty and at most 8192 bytes; an empty read
terminates the loop).
-/

/-- One pass of the bridge loop: returns the final file system and the
write log (chunk, append-flag) in issue order. -/
def bridgeLoop (fs : RemoteFS) (path mode : String) (isFirst : Bool) :
    List String → RemoteFS × List (String × Bool)
  | [] => (fs, [])
  | chunk :: rest =>
    let append := (mode = "append") || !isFirst
    let fs' := writeFile fs path chunk append
    let (fs'', log) := bridgeLoop fs' path mode false rest
    (fs'', (chunk, append) :: log)

/-- The guard of the bridge (`shell.py:777-781`): a stdout redirection,
exactly one process, a streaming-capable command, no arguments, no
pre-fed stdin. -/
def bridgeApplies (hasStdoutRedir : Bool) (numProcs : Nat) (cmd : String)
    (args : List String) (stdinData : Option String) : Bool :=
  hasStdoutRedir && numProcs = 1 && supportsStreaming cmd && args.isEmpty
    && stdinData.isNone

/-! ## `shlex.split` (POSIX mode, `whitespace_split=True`)

`CommandParser.parse_pipeline` tokenizes each pipeline segment with
`shlex.split`, falling back to `str.split()` when shlex raises
`ValueError` (unmatched quote / trailing escape).  The state machine
below follows `shlex.read_token` for the configuration `shlex.split`
uses: whitespace `' \t\r\n'`, quotes `'` and `"`, escape `\`,
`escapedquotes = '"'` (inside double quotes a backslash escapes only
`\` and `"`, otherwise it stays literal; inside single quotes nothing is
an escape). -/

/-- `shlex.whitespace`. -/
def isShlexWS (c : Char) : Bool := c = ' ' || c = '\t' || c = '\r' || c = '\n'

/-- Lexer state: between tokens, in a word, in single quotes, in double
quotes, after a top-level escape, after an escape inside double
quotes. -/
inductive ShState where
  | ws | word | sq | dq | escTop | escDq
deriving DecidableEq

/-- The backslash character. -/
def bslash : Char := '\\'

/-- The single-quote character. -/
def squoteChar : Char := '\''

/-- The double-quote character. -/
def dquoteChar : Char := '"'

/-- The backtick character (written via its code point to keep source
plain). -/
def btickChar : Char := Char.ofNat 96

/-- The `brace` characters (via code points). -/
def lbraceChar : Char := Char.ofNat 123

def rbraceChar : Char := Char.ofNat 125

/-- The shlex state machine.  `cur = none` means no token has started;
`some t` is the token accumulated so far (so an empty quoted string
yields the empty token, as in POSIX shlex).  The accumulator of emitted
tokens is kept reversed. -/
def shlexRun : List Char → ShState → Option (List Char) → List (List Char) →
    Except Unit (List (List Char))
  | [], .ws, _, acc => .ok acc.reverse
  | [], .word, cur, acc => .ok ((cur.getD [] :: acc).reverse)
  | [], .sq, _, _ => .error ()      -- "No closing quotation"
  | [], .dq, _, _ => .error ()      -- "No closing quotation"
  | [], .escTop, _, _ => .error ()  -- "No escaped character"
  | [], .escDq, _, _ => .error ()   -- "No escaped character"
  | c :: rest, .ws, _, acc =>
    if isShlexWS c then shlexRun rest .ws none acc
    else if c = squoteChar then shlexRun rest .sq (some []) acc
    else if c = dquoteChar then shlexRun rest .dq (some []) acc
    else if c = bslash then shlexRun rest .escTop (some []) acc
    else shlexRun rest .word (some [c]) acc
  | c :: rest, .word, cur, acc =>
    let t := cur.getD []
    if isShlexWS c then shlexRun rest .ws none (t :: acc)
    else if c = squoteChar then shlexRun rest .sq (some t) acc
    else if c = dquoteChar then shlexRun rest .dq (some t) acc
    else if c = bslash then shlexRun rest .escTop (some t) acc
    else shlexRun rest .word (some (t ++ [c])) acc
  | c :: rest, .sq, cur, acc =>
    let t := cur.getD []
    if c = squoteChar then shlexRun rest .word (some t) acc
    else shlexRun rest .sq (some (t ++ [c])) acc
  | c :: rest, .dq, cur, acc =>
    let t := cur.getD []
    if c = dquoteChar then shlexRun rest .word (some t) acc
    else if c = bslash then shlexRun rest .escDq (some t) acc
    else shlexRun rest .dq (some (t ++ [c])) acc
  | c :: rest, .escTop, cur, acc =>
    shlexRun rest .word (some (cur.getD [] ++ [c])) acc
  | c :: rest, .escDq, cur, acc =>
    let t := cur.getD []
    if c = bslash || c = dquoteChar then shlexRun rest .dq (some (t ++ [c])) acc
    else shlexRun rest .dq (some (t ++ [bslash, c])) acc

/-- `shlex.split(s)`: token list or a `ValueError`. -/
def shlexSplitE (s : String) : Except Unit (List String) :=
  (shlexRun s.data .ws none []).map (fun ts => ts.map (fun l => ⟨l⟩))

/-! ## `CommandParser` (agfs-shell2 `parser.py`) -/

/-- The redirection dictionary `parse_redirection` builds.  There is no
`heredoc_delimiter` key: none of the five patterns produces one, so the
`'heredoc_delimiter' in redirections` checks in `shell.py` can never
fire. -/
structure Redirs where
  stdin? : Option String := none
  stdout? : Option String := none
  stdoutMode? : Option String := none
  stderr? : Option String := none
  stderrMode? : Option String := none
deriving DecidableEq, Repr

/-- Try to match `\s+` `op` `\s+(\S+)` at the head of `l` (which must
begin with whitespace): returns the captured word and the suffix after
the match. -/
def redirTryHere (op : List Char) (l : List Char) : Option (List Char × List Char) :=
  if isPyWS (l.headD 'x') then
    let rest1 := l.dropWhile isPyWS
    if op.isPrefixOf rest1 then
      let rest2 := rest1.drop op.length
      let ws2 := rest2.takeWhile isPyWS
      if ws2 = [] then none
      else
        let rest3 := rest2.dropWhile isPyWS
        let word := rest3.takeWhile (fun c => !isPyWS c)
        if word = [] then none
        else some (word, rest3.drop word.length)
    else none
  else none

/-- Leftmost match of `\s+` `op` `\s+(\S+)` in `l` (as in `re.search`):
returns `(before, captured, after)`. -/
def redirSearch (op : List Char) : List Char → Option (List Char × List Char × List Char)
  | [] => none
  | c :: rest =>
    match redirTryHere op (c :: rest) with
    | some (word, after) => some ([], word, after)
    | none =>
      match redirSearch op rest with
      | some (before, word, after) => some (c :: before, word, after)
      | none => none

/-- Outer-quote stripping applied to redirection targets
(`parser.py:109-112`). -/
def stripOuterQuotes (w : List Char) : List Char :=
  if (w.headD ' ' = dquoteChar && w.getLastD ' ' = dquoteChar)
      || (w.headD ' ' = squoteChar && w.getLastD ' ' = squoteChar) then
    (w.drop 1).dropLast
  else w

/-- Apply one redirection pattern to the working line: on a match,
record the target (quotes stripped) and cut the matched span out of the
line (`parser.py:105-119`). -/
def applyRedirPattern (op : List Char) (l : List Char) : List Char × Option String :=
  match redirSearch op l with
  | some (before, word, after) => (before ++ after, some ⟨stripOuterQuotes word⟩)
  | none => (l, none)

/-- `CommandParser.parse_redirection` (`parser.py:79-121`): the five
patterns are tried in order `<`, `2>>`, `2>`, `>>`, `>`, each at most
once, each removing its span from the line; the cleaned line is finally
stripped. -/
def parseRedirection (commandLine : String) : String × Redirs :=
  let l0 := commandLine.data
  let (l1, stdinT) := applyRedirPattern ['<'] l0
  let (l2, err2T) := applyRedirPattern ['2', '>', '>'] l1
  let (l3, errT) := applyRedirPattern ['2', '>'] l2
  let (l4, outAT) := applyRedirPattern ['>', '>'] l3
  let (l5, outT) := applyRedirPattern ['>'] l4
  let reds : Redirs :=
    { stdin? := stdinT
      stderr? := (err2T <|> errT)
      stderrMode? := if err2T.isSome then some "append" else if errT.isSome then some "write" else none
      stdout? := (outAT <|> outT)
      stdoutMode? := if outAT.isSome then some "append" else if outT.isSome then some "write" else none }
  (⟨pyStripL l5⟩, reds)

/-- Tokenize one pipeline segment: `shlex.split`, falling back to
`str.split()` on a `ValueError` (`parser.py:65-70`). -/
def segTokens (part : String) : List String :=
  match shlexSplitE part with
  | .ok ts => ts
  | .error _ => pySplitWS part

/-- `CommandParser.parse_pipeline` (`parser.py:38-77`): split on `|`,
strip each segment, drop blank segments, tokenize, drop token-less
segments, and return `(command, args)` per remaining segment. -/
def parsePipeline (commandLine : String) : List (String × List String) :=
  if pyStrip commandLine = "" then []
  else
    (pySplitOn commandLine '|').filterMap (fun part =>
      let part := pyStrip part
      if part = "" then none
      else
        match segTokens part with
        | [] => none
        | t :: ts => some (t, ts))

/-- `CommandParser.parse_command_line` (`parser.py:19-36`). -/
def parseCommandLine (commandLine : String) : List (String × List String) × Redirs :=
  let (cleaned, reds) := parseRedirection commandLine
  (parsePipeline cleaned, reds)

/-! ## Variable and command-substitution expansion
(agfs-shell2 `shell.py:106-146`)

`Shell._expand_variables` applies five textual passes to the whole
command line, in order:

1. `text.replace('$?', env.get('?', '0'))`;
2. `re.sub(r'\$\(([^)]+)\)', subst, text)` — `$(…)` command substitution;
3. the same for backtick-quoted commands;
4. `re.sub(r'\$\{([A-Za-z_][A-Za-z0-9_]*)\}', env-lookup, text)`;
5. `re.sub(r'\$([A-Za-z_][A-Za-z0-9_]*)', env-lookup, text)`.

None of the passes inspects quoting: the scanners below replace their
pattern wherever it occurs.  The command-substitution executor is a
parameter (`subst`), exactly as the source delegates to
`_execute_command_substitution`.  Each `re.sub` replaces
non-overlapping, leftmost matches and never rescans replaced text, which
is what the recursions below do.
-/

/-- `[A-Za-z_]`. -/
def isNameStart (c : Char) : Bool := c.isAlpha || c = '_'

/-- `[A-Za-z0-9_]`. -/
def isNameChar (c : Char) : Bool := c.isAlphanum || c = '_'

/-- Split at the first occurrence of `stop`: `(prefix, suffix-from-stop)`. -/
def breakAt (stop : Char) : List Char → List Char × List Char
  | [] => ([], [])
  | c :: cs =>
    if c = stop then ([], c :: cs)
    else
      let (a, b) := breakAt stop cs
      (c :: a, b)

theorem breakAt_append (stop : Char) :
    ∀ l : List Char, (breakAt stop l).1 ++ (breakAt stop l).2 = l := by
  intro l
  induction l with
  | nil => simp [breakAt]
  | cons c cs ih =>
    simp only [breakAt]
    split
    · simp
    · simp [ih]

theorem breakAt_snd_length (stop : Char) (l : List Char) :
    (breakAt stop l).2.length ≤ l.length := by
  conv_rhs => rw [← breakAt_append stop l]
  simp

/-- Pass 1: `text.replace('$?', v)`. -/
def replaceDollarQ (v : List Char) : List Char → List Char
  | '$' :: '?' :: rest => v ++ replaceDollarQ v rest
  | c :: rest => c :: replaceDollarQ v rest
  | [] => []

/-- The `([^)]+)` body of the `$(…)` pattern: a non-empty run of
non-closing characters followed by the closing delimiter.  Returns the
captured text and the suffix after the delimiter.  (`breakAt` stops at
the first occurrence of the delimiter, exactly as the greedy negated
class does.) -/
def delimMatch (delim : Char) (l : List Char) : Option (String × List Char) :=
  let p := breakAt delim l
  if p.1 = [] then none
  else if p.2 = [] then none
  else some (⟨p.1⟩, p.2.tail)

theorem delimMatch_lt (delim : Char) (l : List Char) (name : String)
    (rest' : List Char) (h : delimMatch delim l = some (name, rest')) :
    rest'.length < l.length := by
  unfold delimMatch at h
  by_cases h1 : (breakAt delim l).1 = []
  · simp [h1] at h
  by_cases h2 : (breakAt delim l).2 = []
  · simp [h1, h2] at h
  simp only [if_neg h1, if_neg h2] at h
  have happ := breakAt_append delim l
  have h1len : 0 < (breakAt delim l).1.length := List.length_pos.mpr h1
  have h2len : 0 < (breakAt delim l).2.length := List.length_pos.mpr h2
  have hl : (breakAt delim l).1.length + (breakAt delim l).2.length = l.length := by
    have := congrArg List.length happ
    simpa using this
  have htail : rest' = (breakAt delim l).2.tail := by
    simp only [Option.some.injEq, Prod.mk.injEq] at h
    exact h.2.symm
  rw [htail]
  have := List.length_tail (breakAt delim l).2
  omega

/-- Pass 2: `re.sub(r'\$\(([^)]+)\)', …)`.  A `$(` with a non-empty
run of non-`)` characters up to a closing `)` is replaced by
`subst(inner)`; otherwise scanning resumes one character further (a bare
`(` can never begin a match). -/
def subCmdParen (subst : String → String) : List Char → List Char
  | '$' :: '(' :: rest =>
    match h : delimMatch ')' rest with
    | some (inner, rest') => (subst inner).data ++ subCmdParen subst rest'
    | none => '$' :: '(' :: subCmdParen subst rest
  | c :: rest => c :: subCmdParen subst rest
  | [] => []
termination_by l => l.length
decreasing_by
  all_goals simp only [List.length_cons]
  · have := delimMatch_lt _ _ _ _ h; omega
  · omega
  · omega

/-- Pass 3: backtick command substitution, same contract as pass 2. -/
def subBacktick (subst : String → String) : List Char → List Char
  | [] => []
  | c :: rest =>
    if c = btickChar then
      match h : delimMatch btickChar rest with
      | some (inner, rest') => (subst inner).data ++ subBacktick subst rest'
      | none => c :: subBacktick subst rest
    else c :: subBacktick subst rest
termination_by l => l.length
decreasing_by
  all_goals simp only [List.length_cons]
  · have := delimMatch_lt _ _ _ _ h; omega
  · omega
  · omega

/-- Match `{NAME}` (after a `$`): returns the name and the suffix after
the closing brace. -/
def bracedMatch (l : List Char) : Option (String × List Char) :=
  match l with
  | b :: c :: rest =>
    if b = lbraceChar && isNameStart c then
      let tail := rest.dropWhile isNameChar
      if tail = [] then none
      else if tail.headD ' ' = rbraceChar then
        some (⟨c :: rest.takeWhile isNameChar⟩, tail.tail)
      else none
    else none
  | _ => none

theorem bracedMatch_length (l : List Char) (name : String) (rest' : List Char)
    (h : bracedMatch l = some (name, rest')) : rest'.length ≤ l.length := by
  match l with
  | [] => simp [bracedMatch] at h
  | [b] => simp [bracedMatch] at h
  | b :: c :: rest =>
    simp only [bracedMatch] at h
    by_cases h0 : b = lbraceChar && isNameStart c
    · rw [if_pos h0] at h
      by_cases h1 : rest.dropWhile isNameChar = []
      · simp [h1] at h
      by_cases h2 : (rest.dropWhile isNameChar).headD ' ' = rbraceChar
      · simp only [if_neg h1, if_pos h2] at h
        have htail : rest' = (rest.dropWhile isNameChar).tail := by
          simp only [Option.some.injEq, Prod.mk.injEq] at h
          exact h.2.symm
        have hd : (rest.dropWhile isNameChar).length ≤ rest.length :=
          List.Sublist.length_le (List.dropWhile_sublist _)
        have ht := List.length_tail (rest.dropWhile isNameChar)
        rw [htail]
        simp
        omega
      · simp only [if_neg h1, if_neg h2] at h
        simp at h
    · rw [if_neg h0] at h
      simp at h

/-- Pass 4: `${NAME}` expansion from the environment (empty string when
unset). -/
def subBraced (env : Env) : List Char → List Char
  | [] => []
  | c :: rest =>
    if c = '$' then
      match h : bracedMatch rest with
      | some (name, rest') => (dictGetD env name "").data ++ subBraced env rest'
      | none => c :: subBraced env rest
    else c :: subBraced env rest
termination_by l => l.length
decreasing_by
  all_goals simp only [List.length_cons]
  · have := bracedMatch_length _ _ _ h; omega
  · omega
  · omega

/-- Match `NAME` (after a `$`): a name-start character followed by the
maximal run of name characters; returns the name and the rest. -/
def simpleMatch (l : List Char) : Option (String × List Char) :=
  match l with
  | d :: ds =>
    if isNameStart d then some (⟨d :: ds.takeWhile isNameChar⟩, ds.dropWhile isNameChar)
    else none
  | [] => none

theorem simpleMatch_lt (l : List Char) (name : String) (rest' : List Char)
    (h : simpleMatch l = some (name, rest')) : rest'.length < l.length := by
  match l with
  | [] => simp [simpleMatch] at h
  | d :: ds =>
    simp only [simpleMatch] at h
    split at h
    · simp at h
      have := List.Sublist.length_le (List.dropWhile_sublist (l := ds) (p := isNameChar))
      rw [← h.2]
      simp
      omega
    · simp at h

/-- Pass 5: `$NAME` expansion from the environment. -/
def subSimple (env : Env) : List Char → List Char
  | [] => []
  | c :: rest =>
    if c = '$' then
      match h : simpleMatch rest with
      | some (name, rest') => (dictGetD env name "").data ++ subSimple env rest'
      | none => c :: subSimple env rest
    else c :: subSimple env rest
termination_by l => l.length
decreasing_by
  all_goals simp only [List.length_cons]
  · have := simpleMatch_lt _ _ _ h; omega
  · omega
  · omega

/-- `Shell._expand_variables` (`shell.py:106-146`). -/
def expandVariables (subst : String → String) (env : Env) (text : String) : String :=
  let t1 := replaceDollarQ (dictGetD env "?" "0").data text.data
  let t2 := subCmdParen subst t1
  let t3 := subBacktick subst t2
  let t4 := subBraced env t3
  let t5 := subSimple env t4
  ⟨t5⟩

/-! ## `Shell._execute_command_substitution` (`shell.py:38-104`)

The whole body is wrapped in `try: … except Exception: return ''`.  The
command is parsed (`parse_command_line`); an empty command list yields
`''`; otherwise the pipeline is built and run and its decoded output has
a single trailing newline removed.  Building and running the processes
(lines 53-97) is abstracted as `runPipe`; note that in the shipped
sources this step always raises `TypeError` — `Process.__init__` in
`process.py` does not accept the `filesystem=`/`env=` keyword arguments
`shell.py` passes — and any such exception takes the `except` path. -/

/-- Remove one trailing newline, not all whitespace (`shell.py:99-101`). -/
def trimTrailingNL (s : String) : String :=
  if pyEndsWith s "\n" then ⟨s.data.dropLast⟩ else s

def execCmdSubst (runPipe : List (String × List String) → Except Unit String)
    (command : String) : String :=
  let (commands, _) := parseCommandLine command
  if commands = [] then ""
  else
    match runPipe commands with
    | .ok out => trimTrailingNL out
    | .error _ => ""

/-! ## Processes and the pipeline runtime
(agfs-shell2 `process.py`, `pipeline.py`, `builtins.py`)

Streams are modelled from the spec: `streams.py` is not under `src/`;
§3 specifies buffer-backed byte channels whose `write` appends and whose
`get_value` returns the accumulated content (`InputStream.from_bytes`,
`OutputStream.to_buffer`, `ErrorStream.to_buffer`).  A `Proc` carries
its three buffers directly.  Pass-through stdout
(`OutputStream.from_stdout`) writes the same bytes to the terminal
instead of retaining them; for the data-flow properties proved here the
buffered view is used for every stage, which coincides with what the
pipeline hands to the next stage and to redirections.

Executors: the model embeds `cmd_echo` (`builtins.py:31-39`), `cmd_cat`
(`builtins.py:42-104`) and `cmd_cd` (`builtins.py:619-644`); every other
name resolves to no executor, which `Process.execute`
(`process.py:38-61`) reports as exit 127.  (The shipped `BUILTINS` table
has more entries; the subset is what the claims exercise, and no
executor can touch `Session.cwd` — a `Process` carries no reference to
the shell.)  `localStdin` is the chunk sequence of the real stdin
(`sys.stdin.buffer.read(8192)`), consumed by `cat` when its stdin buffer
is empty. -/

inductive ExecTag where
  | echoTag | catTag | cdTag
deriving DecidableEq, Repr

structure Proc where
  command : String
  args : List String
  stdinBuf : String := ""
  stdoutBuf : String := ""
  stderrBuf : String := ""
  tag? : Option ExecTag := none
deriving DecidableEq, Repr

/-- `get_builtin` (`builtins.py:1928-1930`), restricted to the embedded
executors. -/
def getBuiltinTag (cmd : String) : Option ExecTag :=
  if cmd = "echo" then some .echoTag
  else if cmd = "cat" then some .catTag
  else if cmd = "cd" then some .cdTag
  else none

/-- `' '.join(args)`. -/
def joinSpace (args : List String) : String := String.intercalate " " args

/-- The file loop of `cmd_cat` with arguments: each file is streamed to
stdout; a missing file prints the not-found message and exits 1 at
once. -/
def runCatFiles (fs : RemoteFS) (p : Proc) : List String → Proc × Int
  | [] => (p, 0)
  | f :: rest =>
    match dictGet fs f with
    | some content => runCatFiles fs { p with stdoutBuf := p.stdoutBuf ++ content } rest
    | none =>
      ({ p with stderrBuf := p.stderrBuf ++ "cat: " ++ f ++ ": No such file or directory\n" }, 1)

/-- One executor run (`cmd_echo`, `cmd_cat`, `cmd_cd`). -/
def runExecTag (fs : RemoteFS) (localStdin : List String) (tag : ExecTag) (p : Proc) :
    Proc × Int :=
  match tag with
  | .echoTag =>
    if p.args ≠ [] then ({ p with stdoutBuf := p.stdoutBuf ++ joinSpace p.args ++ "\n" }, 0)
    else ({ p with stdoutBuf := p.stdoutBuf ++ "\n" }, 0)
  | .catTag =>
    if p.args = [] then
      if p.stdinBuf ≠ "" then ({ p with stdoutBuf := p.stdoutBuf ++ p.stdinBuf }, 0)
      else ({ p with stdoutBuf := p.stdoutBuf ++ String.join localStdin }, 0)
    else runCatFiles fs p p.args
  | .cdTag =>
    -- cmd_cd only records the target for the shell and returns 0; the
    -- pipeline path ignores it (`builtins.py:636-644`)
    (p, 0)

/-- `Process.execute` (`process.py:38-61`): no executor → stderr message
and exit 127, else run the executor. -/
def procExecute (fs : RemoteFS) (localStdin : List String) (p : Proc) : Proc × Int :=
  match p.tag? with
  | none =>
    ({ p with stderrBuf := p.stderrBuf ++ "Error: No executor for command '"
        ++ p.command ++ "'\n" }, 127)
  | some t => runExecTag fs localStdin t p

/-- `Pipeline.execute` (`pipeline.py:21-49`): stages run sequentially;
for `i > 0` the stage's stdin is replaced by the previous stage's
buffered stdout; the exit code is the last stage's. -/
def pipelineRun (fs : RemoteFS) (localStdin : List String) :
    Option String → List Proc → List Proc × Int
  | _, [] => ([], 0)
  | prev, p :: ps =>
    let p1 := match prev with
      | some s => { p with stdinBuf := s }
      | none => p
    let (p2, code) := procExecute fs localStdin p1
    match ps with
    | [] => ([p2], code)
    | _ :: _ =>
      let (rest, codeRest) := pipelineRun fs localStdin (some p2.stdoutBuf) ps
      (p2 :: rest, codeRest)

def pipelineExecute (fs : RemoteFS) (localStdin : List String) (ps : List Proc) :
    List Proc × Int :=
  pipelineRun fs localStdin none ps

/-- `Pipeline.get_stdout`: the last stage's stdout. -/
def pipelineStdout (ps : List Proc) : String :=
  match ps.getLast? with
  | some p => p.stdoutBuf
  | none => ""

/-- `Pipeline.get_stderr`: every stage's stderr, concatenated. -/
def pipelineStderr (ps : List Proc) : String :=
  String.join (ps.map Proc.stderrBuf)

/-! ## `Shell.execute`, post-expansion core (agfs-shell2 `shell.py:685-898`)

The model starts where the parsed and glob-expanded command list is
available and covers: the empty-command early return, the cd branch, the
`<` stdin redirection, process construction (path resolution per
metadata), the direct streaming bridge, the normal pipeline run, and the
`>`/`>>`/`2>`/`2>>` redirection writes.  The remote server's directory
listing is modelled by `dirs`: `list_directory(p)` succeeds exactly for
`p ∈ dirs`.  Terminal output is accumulated in `termOut` / `termErr`
(the interactive trailing-newline cosmetics of lines 844-869 are
display-only and not modelled). -/

structure ShellState where
  cwd : String
  fs : RemoteFS
  dirs : List String
  termOut : String := ""
  termErr : String := ""
deriving DecidableEq, Repr

/-- Process construction loop (`shell.py:724-771`) as written: resolve
non-flag arguments for path-resolving commands, feed `stdinData` to
stage 0.  Note the `Process(...)` call itself raises `TypeError` in the
staged source (`filesystem=`/`env=` are not parameters of
`Process.__init__`); that check lives in `shellRun` below — this
definition and `shellExecute` describe the code the construction loop,
bridge and pipeline spell out, which is what the dead-code claim C5 is
measured against. -/
def buildProcs (cwd : String) (stdinData : Option String)
    (commands : List (String × List String)) : List Proc :=
  commands.mapIdx (fun i (c : String × List String) =>
    let (cmd, args) := c
    let args := if needsPathResolution cmd then
        args.map (fun a => if pyStartsWith a "-" then a else resolvePath cwd a)
      else args
    let stdin := if i = 0 then stdinData.getD "" else ""
    { command := cmd, args := args, stdinBuf := stdin, tag? := getBuiltinTag cmd })

def shellExecute (st : ShellState) (localStdin : List String)
    (commands : List (String × List String)) (reds : Redirs)
    (stdinData0 : Option String) : ShellState × Int :=
  if commands = [] then (st, 0)
  else if commands.length = 1 && changesCwd (commands.headD ("", [])).1 then
    -- cd branch (`shell.py:688-708`)
    let args := (commands.headD ("", [])).2
    let target := match args with
      | [] => "/"
      | a :: _ => a
    let resolved := resolvePath st.cwd target
    if resolved ∈ st.dirs then ({ st with cwd := resolved }, 0)
    else ({ st with termErr := st.termErr ++ "cd: " ++ target
              ++ ": No such file or directory\n" }, 1)
  else
    -- `<` redirection (`shell.py:711-722`)
    let stdinRead : Option (Option String) := match reds.stdin? with
      | some f =>
        match dictGet st.fs (resolvePath st.cwd f) with
        | some content => some (some content)
        | none => none          -- read_file raised: error printed, exit 1
      | none => some stdinData0
    match stdinRead with
    | none => ({ st with termErr := st.termErr ++ "shell: redirection input error\n" }, 1)
    | some stdinData =>
      let procs := buildProcs st.cwd stdinData commands
      match procs with
      | p0 :: _ =>
        if reds.stdout?.isSome && procs.length = 1 && supportsStreaming p0.command
            && p0.args.isEmpty && stdinData.isNone then
          -- direct streaming bridge (`shell.py:773-815`)
          let outputFile := resolvePath st.cwd (reds.stdout?.getD "")
          let mode := reds.stdoutMode?.getD "write"
          let (fs', _) := bridgeLoop st.fs outputFile mode true localStdin
          let st := { st with fs := fs' }
          -- fall through to stderr handling with empty stderr data (`shell.py:807-808`)
          match reds.stderr? with
          | some ef =>
            let st := { st with fs := (writeFile st.fs (resolvePath st.cwd ef) ""
                (reds.stderrMode?.getD "write" = "append")) }
            (st, 0)
          | none => (st, 0)
        else
          -- normal pipeline (`shell.py:816-839`)
          let (procs', code) := pipelineExecute st.fs localStdin procs
          let stdoutData := pipelineStdout procs'
          let stderrData := pipelineStderr procs'
          let st := match reds.stdout? with
            | some f => { st with fs := (writeFile st.fs (resolvePath st.cwd f) stdoutData
                (reds.stdoutMode?.getD "write" = "append")) }
            | none => { st with termOut := st.termOut ++ stdoutData }
          let st := match reds.stderr? with
            | some ef => { st with fs := (writeFile st.fs (resolvePath st.cwd ef) stderrData
                (reds.stderrMode?.getD "write" = "append")) }
            | none => { st with termErr := st.termErr ++ stderrData }
          (st, code)
      | [] => (st, 0)

/-! ### The construction call as the staged source actually runs it

`shellExecute` above models the construction loop and everything after
it as the code is written.  In the staged sources, however, the
`Process(...)` call at `shell.py:759-768` passes two keyword arguments
that `Process.__init__` (`process.py:10-18`) does not accept, so the
call raises `TypeError` on the first loop iteration — before the
streaming bridge or the pipeline can run.  The exception propagates out
of `Shell.execute`; the REPL's generic handler prints it
(`shell.py:1173-1174`) and neither the session state nor the remote
filesystem is touched.  `shellRun` is the top level with this
signature check made explicit. -/

/-- The parameters `Process.__init__` accepts (`process.py:10-18`). -/
def processInitParams : List String :=
  ["command", "args", "stdin", "stdout", "stderr", "executor"]

/-- The keyword arguments `Shell.execute` passes at the construction
call (`shell.py:759-768`). -/
def processCallKeywords : List String :=
  ["command", "args", "stdin", "stdout", "stderr", "executor", "filesystem", "env"]

/-- Python raises `TypeError` when a call passes a keyword argument the
callee's signature does not accept. -/
def processCallRaises : Bool :=
  processCallKeywords.any (fun k => !(processInitParams.contains k))

/-- The exception the construction call raises in the staged source. -/
def typeErrorMsg : String :=
  "TypeError: Process.__init__() got an unexpected keyword argument 'filesystem'"

/-- `Shell.execute` as the staged source actually runs
(`shell.py:685-898` with the construction call checked against
`Process.__init__`'s signature): the empty-command, cd and failed-`<`
paths return as in `shellExecute` (they precede the construction loop);
any other pipeline reaches the `Process(...)` call, which raises —
`Except.error` models the exception escaping `execute` with no state
change and no write performed.  Were the call's keywords accepted,
execution would continue exactly as `shellExecute`. -/
def shellRun (st : ShellState) (localStdin : List String)
    (commands : List (String × List String)) (reds : Redirs)
    (stdinData0 : Option String) : Except String (ShellState × Int) :=
  if commands = [] then .ok (st, 0)
  else if commands.length = 1 && changesCwd (commands.headD ("", [])).1 then
    .ok (shellExecute st localStdin commands reds stdinData0)
  else
    let stdinRead : Option (Option String) := match reds.stdin? with
      | some f =>
        match dictGet st.fs (resolvePath st.cwd f) with
        | some content => some (some content)
        | none => none
      | none => some stdinData0
    match stdinRead with
    | none => .ok ({ st with termErr := st.termErr ++ "shell: redirection input error\n" }, 1)
    | some _ =>
      if processCallRaises then .error typeErrorMsg
      else .ok (shellExecute st localStdin commands reds stdinData0)

/-! ## `CommandHandler._apply_redirections` (pfs-shell `commands.py:356-437`)

The chained-redirection handler: empty content applies nothing; each
redirect resolves its target, reads existing content in append mode,
writes, and feeds the server's write *response* to the next redirect.
An empty response aborts the chain with a diagnostic unless it is the
final redirect.  `resp path content` is the response the server returns
for that write (the HTTP contract leaves it free; transport failures are
outside this model, the response oracle covers the empty-response
contract).  The returned write log records `(resolved path, bytes
written)` in issue order. -/

structure PfsRedirect where
  path : String
  append : Bool
deriving DecidableEq, Repr

/-- The bytes a redirect writes (lines 381-390): in append mode current
remote content, if any, prefixed to the incoming content. -/
def chainWriteContent (fs : RemoteFS) (path cur : String) (append : Bool) : String :=
  if append then
    match dictGet fs path with
    | some existing => existing ++ cur
    | none => cur
  else cur

/-- The redirect loop of `_apply_redirections` (lines 377-431): returns
the file system, the write log, the aborted flag, and the final
`current_content`. -/
def applyChain (resp : String → String → String) (cwd : String) :
    RemoteFS → String → List PfsRedirect → RemoteFS × List (String × String) × Bool × String
  | fs, cur, [] => (fs, [], false, cur)
  | fs, cur, r :: rest =>
    let path := pfsResolvePath cwd r.path
    let writeContent := chainWriteContent fs path cur r.append
    let fs' := dictSet fs path writeContent
    let response := resp path writeContent
    if response ≠ "" then
      let (fs'', log, ab, fin) := applyChain resp cwd fs' response rest
      (fs'', (path, writeContent) :: log, ab, fin)
    else if rest ≠ [] then
      -- empty response with redirects remaining: diagnostic, chain aborted
      (fs', [(path, writeContent)], true, writeContent)
    else
      -- empty response on the final redirect is accepted
      (fs', [(path, writeContent)], false, writeContent)

/-- `_apply_redirections` (lines 356-437): `None` for empty content, for
an aborted chain and for the last pipeline stage; otherwise the final
content for pipeline continuation. -/
def applyRedirections (resp : String → String → String) (cwd : String) (fs : RemoteFS)
    (content : String) (redirects : List PfsRedirect) (isLast : Bool) :
    RemoteFS × List (String × String) × Bool × Option String :=
  if content = "" then (fs, [], false, none)
  else
    let (fs', log, ab, fin) := applyChain resp cwd fs content redirects
    (fs', log, ab, if ab then none else if isLast then none else some fin)

/-! ## Statement dispatch and control flow
(agfs-shell2 `shell.py:308-664` and the REPL loop `shell.py:1074-1167`)

`Shell.execute` first recognizes `for` and `if` statements: a statement
beginning with `for ` that contains the word `done`
(`re.search(r'\bdone\b', …)`) is split on `;` and run as a for loop;
without `done` the sentinel `-997` is returned so the REPL collects more
lines.  Likewise `if `/`fi`/`-998`.  Then `NAME=value` assignments are
handled.  Everything else is the pipeline path, abstracted by the oracle
`pipeRun` (expansion, parsing and the pipeline run of lines 666-898
return an exit code and do not write `env['?']`; `execute` can also
never return `-999` there because `parse_redirection` produces no
`heredoc_delimiter` key).  Command substitution inside `_expand_variables`
is similarly the oracle `subst`.  The source recursions
(`execute` ⇄ `execute_for_loop` ⇄ `execute_if_statement`) carry no
termination measure, so the embedding is fueled: `none` means the fuel
ran out, never a value the source computes. -/

/-- `\w` of the `\bdone\b` / `\bfi\b` searches. -/
def isWordChar (c : Char) : Bool := c.isAlphanum || c = '_'

/-- `re.search(r'\b' + w + r'\b', s)` for a word `w` made of word
characters: some occurrence of `w` with no word character on either
side. -/
def containsWordAux (w : List Char) : Option Char → List Char → Bool
  | prev, l =>
    let boundaryOk := match prev with
      | none => true
      | some p => !isWordChar p
    if boundaryOk && w.isPrefixOf l &&
        (match l.drop w.length with
         | [] => true
         | d :: _ => !isWordChar d) then true
    else
      match l with
      | [] => false
      | c :: rest => containsWordAux w (some c) rest

def containsWord (w s : String) : Bool := containsWordAux w.data none s.data

/-- `re.split(r';\s*', s)`: split at each `;`, also consuming the
whitespace that follows it. -/
def splitSemiL : List Char → List (List Char)
  | [] => [[]]
  | c :: rest =>
    if c = ';' then [] :: splitSemiL (rest.dropWhile isPyWS)
    else
      match splitSemiL rest with
      | [] => [[c]]
      | t :: ts => (c :: t) :: ts
termination_by l => l.length
decreasing_by
  all_goals simp only [List.length_cons]
  · exact Nat.lt_succ_of_le (List.Sublist.length_le (List.dropWhile_sublist _))
  · omega

def splitSemi (s : String) : List String := (splitSemiL s.data).map (fun l => ⟨l⟩)

/-- `for`/`if` statements arrive at the loop executors as the split
statement lines: `[part.strip() for part in parts if part.strip()]`. -/
def stmtLines (s : String) : List String :=
  (splitSemi s).filterMap (fun p =>
    let q := pyStrip p
    if q = "" then none else some q)

/-- The variable-name test of the assignment branch
(`shell.py:650-652`): non-empty, alphanumeric after removing
underscores, and free of spaces. -/
def isValidVarName (v : String) : Bool :=
  v ≠ "" &&
    (let s := v.data.filter (fun c => c ≠ '_')
     s ≠ [] && s.all Char.isAlphanum) &&
    !v.data.contains ' '

/-- Outer-quote stripping of an assignment value (`shell.py:655-659`):
only applied when the value has at least two characters and matching
outer quotes. -/
def stripValueQuotes (v : String) : String :=
  if v.data.length ≥ 2 &&
      ((v.data.headD ' ' = dquoteChar && v.data.getLastD ' ' = dquoteChar)
        || (v.data.headD ' ' = squoteChar && v.data.getLastD ' ' = squoteChar)) then
    ⟨(v.data.drop 1).dropLast⟩
  else v

/-- `str[n:]` on `String`. -/
def pyDropLeft (s : String) (n : Nat) : String := ⟨s.data.drop n⟩

/-- `str[:-n]` on `String`. -/
def pyDropRight (s : String) (n : Nat) : String := ⟨s.data.take (s.data.length - n)⟩

/-- `str.rstrip(';')`. -/
def rstripSemi (s : String) : String :=
  ⟨(s.data.reverse.dropWhile (fun c => c = ';')).reverse⟩

/-- First occurrence of the substring `sep`: `s.split(sep, 1)` when it
occurs. -/
def splitOnceSubAux (sep : List Char) : List Char → Option (List Char × List Char)
  | [] => if sep.isPrefixOf [] then some ([], []) else none
  | c :: rest =>
    if sep.isPrefixOf (c :: rest) then some ([], (c :: rest).drop sep.length)
    else
      match splitOnceSubAux sep rest with
      | some (a, b) => some (c :: a, b)
      | none => none

def splitOnceSub (sep s : String) : Option (String × String) :=
  (splitOnceSubAux sep.data s.data).map (fun p => (⟨p.1⟩, ⟨p.2⟩))

/-! ### `Shell._parse_for_loop` (`shell.py:383-471`) -/

structure ForParse where
  var : String
  items : List String
  cmds : List String
deriving DecidableEq, Repr

/-- The nested-loop collection inside `_parse_for_loop`
(lines 459-465): stripped lines are appended up to and including the
first `done`; the outer loop resumes at that same `done` line (the
inner `while` breaks without advancing the index). -/
def parseNestedCollect : List String → List String × List String
  | [] => ([], [])
  | l :: rest =>
    let s := pyStrip l
    if s = "done" then ([s], l :: rest)
    else
      let (c, r) := parseNestedCollect rest
      (s :: c, r)

theorem parseNestedCollect_snd_le :
    ∀ ls : List String, (parseNestedCollect ls).2.length ≤ ls.length := by
  intro ls
  induction ls with
  | nil => simp [parseNestedCollect]
  | cons l rest ih =>
    simp only [parseNestedCollect]
    split
    · simp
    · simp only []
      simp
      omega

/-- Parser accumulator: `state == 'do'`, whether the head `for` was
parsed, the loop variable, items and body commands. -/
structure ForAcc where
  stateDo : Bool
  firstParsed : Bool
  var? : Option String
  items : List String
  cmds : List String

def forFinish (acc : ForAcc) : Option ForParse :=
  match acc.var? with
  | some v => if v ≠ "" then some ⟨v, acc.items, acc.cmds⟩ else none
  | none => none

def parseForAux (subst : String → String) (env : Env) :
    List String → ForAcc → Option ForParse
  | [], acc => forFinish acc
  | l :: rest, acc =>
    let line := pyStrip l
    if line = "" || pyStartsWith line "#" then parseForAux subst env rest acc
    else if line = "done" then forFinish acc
    else if line = "do" then parseForAux subst env rest { acc with stateDo := true }
    else if pyStartsWith line "do " then
      let cmd := pyStrip (pyDropLeft line 3)
      parseForAux subst env rest
        { acc with stateDo := true, cmds := acc.cmds ++ (if cmd ≠ "" then [cmd] else []) }
    else if pyStartsWith line "for " then
      if !acc.firstParsed then
        let parts0 := pyStrip (pyDropLeft line 4)
        let (parts, stD) :=
          if pyEndsWith parts0 "; do" then (pyStrip (pyDropRight parts0 4), true)
          else if pyEndsWith parts0 " do" then (pyStrip (pyDropRight parts0 3), true)
          else (parts0, acc.stateDo)
        match splitOnceSub " in " parts with
        | some (v, itemsStr) =>
          let itemsStr := expandVariables subst env (pyStrip itemsStr)
          parseForAux subst env rest
            { acc with stateDo := stD, firstParsed := true, var? := some (pyStrip v), items := pySplitWS itemsStr }
        | none => none                         -- invalid for syntax
      else
        if acc.stateDo then
          let pr := parseNestedCollect rest
          parseForAux subst env pr.2 { acc with cmds := acc.cmds ++ line :: pr.1 }
        else parseForAux subst env rest acc
    else
      parseForAux subst env rest
        (if acc.stateDo then { acc with cmds := acc.cmds ++ [line] } else acc)
termination_by ls _ => ls.length
decreasing_by
  all_goals simp only [List.length_cons]
  all_goals try omega
  · have := parseNestedCollect_snd_le rest
    omega

def parseForLoop (subst : String → String) (env : Env) (lines : List String) :
    Option ForParse :=
  parseForAux subst env lines ⟨false, false, none, [], []⟩

/-! ### `Shell._parse_if_statement` (`shell.py:506-600`) -/

structure IfParse where
  conds : List (String × List String)
  elseBlk : Option (List String)
deriving DecidableEq, Repr

/-- Parser accumulator: collected branches, current condition, current
block, and state (0 = `if`, 1 = `then`, 2 = `else`). -/
structure IfAcc where
  conds : List (String × List String)
  cond? : Option String
  blk : List String
  state : Nat

/-- Flush the pending `(condition, block)` pair, as the source does on
`elif` / `else` / `fi`. -/
def ifFlush (acc : IfAcc) : List (String × List String) :=
  match acc.cond? with
  | some c => acc.conds ++ [(c, acc.blk)]
  | none => acc.conds

def parseIfAux : List String → IfAcc → IfParse
  | [], acc => ⟨acc.conds, none⟩
  | l :: rest, acc =>
    let line := pyStrip l
    if line = "" || pyStartsWith line "#" then parseIfAux rest acc
    else if line = "fi" then
      if acc.state = 1 && acc.cond?.isSome then ⟨ifFlush acc, none⟩
      else if acc.state = 2 then ⟨acc.conds, some acc.blk⟩
      else ⟨acc.conds, none⟩
    else if line = "then" then parseIfAux rest { acc with state := 1, blk := [] }
    else if pyStartsWith line "then " then
      let cmd := pyStrip (pyDropLeft line 5)
      parseIfAux rest { acc with state := 1, blk := if cmd ≠ "" then [cmd] else [] }
    else if pyStartsWith line "elif " then
      let part0 := pyStrip (pyDropLeft line 5)
      let hasThen := pyEndsWith part0 " then"
      let part := if hasThen then pyStrip (pyDropRight part0 5) else part0
      parseIfAux rest
        { conds := ifFlush acc, cond? := some (rstripSemi part), blk := [], state := if hasThen then 1 else 0 }
    else if line = "else" then
      parseIfAux rest { conds := ifFlush acc, cond? := none, blk := [], state := 2 }
    else if pyStartsWith line "else " then
      let cmd := pyStrip (pyDropLeft line 5)
      parseIfAux rest
        { conds := ifFlush acc, cond? := none, blk := if cmd ≠ "" then [cmd] else [], state := 2 }
    else if pyStartsWith line "if " then
      let part0 := pyStrip (pyDropLeft line 3)
      let hasThen := pyEndsWith part0 " then"
      let part := if hasThen then pyStrip (pyDropRight part0 5) else part0
      parseIfAux rest
        { acc with cond? := some (rstripSemi part), state := if hasThen then 1 else 0, blk := if hasThen then [] else acc.blk }
    else
      if acc.state = 1 || acc.state = 2 then
        parseIfAux rest { acc with blk := acc.blk ++ [line] }
      else parseIfAux rest acc

def parseIfStatement (lines : List String) : IfParse :=
  parseIfAux lines ⟨[], none, [], 0⟩

/-! ### The fueled executors -/

/-- Oracles for the parts of `execute` outside the statement dispatcher:
`subst` is `_execute_command_substitution`, `pipeRun` is the pipeline
path (`shell.py:666-898`), which returns an exit code and does not touch
`env['?']`. -/
structure ExecOracles where
  subst : String → String
  pipeRun : String → Int

/-- The nested-`for` collection of `execute_for_loop`
(`shell.py:339-353`): depth-tracked, collected lines include the closing
`done`, execution resumes after it. -/
def collectForBlock : Nat → List String → List String × List String
  | _, [] => ([], [])
  | depth, l :: rest =>
    let s := pyStrip l
    if pyStartsWith s "for " then
      let (c, r) := collectForBlock (depth + 1) rest
      (l :: c, r)
    else if s = "done" then
      if depth = 1 then ([l], rest)
      else
        let (c, r) := collectForBlock (depth - 1) rest
        (l :: c, r)
    else
      let (c, r) := collectForBlock depth rest
      (l :: c, r)

/-- The nested-`if` collection of `execute_for_loop`
(`shell.py:357-372`). -/
def collectIfBlock : Nat → List String → List String × List String
  | _, [] => ([], [])
  | depth, l :: rest =>
    let s := pyStrip l
    if pyStartsWith s "if " then
      let (c, r) := collectIfBlock (depth + 1) rest
      (l :: c, r)
    else if s = "fi" then
      if depth = 1 then ([l], rest)
      else
        let (c, r) := collectIfBlock (depth - 1) rest
        (l :: c, r)
    else
      let (c, r) := collectIfBlock depth rest
      (l :: c, r)

mutual

/-- `Shell.execute` (`shell.py:602-664` dispatch; pipeline path as
oracle). -/
def executeStmt (orac : ExecOracles) : Nat → Env → String → Option (Int × Env)
  | 0, _, _ => none
  | fuel + 1, env, cmdLine =>
    let stripped := pyStrip cmdLine
    if pyStartsWith stripped "for " then
      if containsWord "done" cmdLine then
        executeForLoop orac fuel env (stmtLines cmdLine)
      else some (-997, env)
    else if pyStartsWith stripped "if " then
      if containsWord "fi" cmdLine then
        executeIfStatement orac fuel env (stmtLines cmdLine)
      else some (-998, env)
    else if cmdLine.data.contains '=' && !pyStartsWith stripped "=" then
      let (before, after) := breakAt '=' cmdLine.data
      let varName : String := ⟨pyStripL before⟩
      if isValidVarName varName then
        let value := expandVariables orac.subst env
          (stripValueQuotes ⟨pyStripL after.tail⟩)
        some (0, dictSet env varName value)
      else some (orac.pipeRun cmdLine, env)
    else some (orac.pipeRun cmdLine, env)

/-- `Shell.execute_for_loop` (`shell.py:308-381`). -/
def executeForLoop (orac : ExecOracles) : Nat → Env → List String → Option (Int × Env)
  | 0, _, _ => none
  | fuel + 1, env, lines =>
    match parseForLoop orac.subst env lines with
    | none => some (1, env)
    | some fp => forItems orac fuel fp.var fp.cmds env fp.items 0

/-- The per-item loop of `execute_for_loop` (lines 328-379). -/
def forItems (orac : ExecOracles) :
    Nat → String → List String → Env → List String → Int → Option (Int × Env)
  | 0, _, _, _, _, _ => none
  | _ + 1, _, _, env, [], last => some (last, env)
  | fuel + 1, var, cmds, env, it :: its, last => do
    let env := dictSet env var it
    let (code, env') ← runBody orac fuel env last cmds
    let _ := last
    forItems orac fuel var cmds env' its code

/-- The body loop of `execute_for_loop` (lines 334-379), with the
nested-block collections. -/
def runBody (orac : ExecOracles) : Nat → Env → Int → List String → Option (Int × Env)
  | 0, _, _, _ => none
  | _ + 1, env, last, [] => some (last, env)
  | fuel + 1, env, _, cmd :: rest =>
    let s := pyStrip cmd
    if pyStartsWith s "for " then
      let (collected, r) := collectForBlock 1 rest
      do
        let (code, env') ← executeForLoop orac fuel env (cmd :: collected)
        runBody orac fuel env' code r
    else if pyStartsWith s "if " then
      let (collected, r) := collectIfBlock 1 rest
      do
        let (code, env') ← executeIfStatement orac fuel env (cmd :: collected)
        runBody orac fuel env' code r
    else do
      let (code, env') ← executeStmt orac fuel env cmd
      runBody orac fuel env' code rest

/-- `Shell.execute_if_statement` (`shell.py:473-504`). -/
def executeIfStatement (orac : ExecOracles) :
    Nat → Env → List String → Option (Int × Env)
  | 0, _, _ => none
  | fuel + 1, env, lines =>
    let p := parseIfStatement lines
    ifConds orac fuel env p.conds p.elseBlk

/-- The condition loop of `execute_if_statement` (lines 486-504). -/
def ifConds (orac : ExecOracles) :
    Nat → Env → List (String × List String) → Option (List String) → Option (Int × Env)
  | 0, _, _, _ => none
  | fuel + 1, env, [], elseBlk =>
    match elseBlk with
    | some blk => runBlock orac fuel env 0 blk
    | none => some (0, env)
  | fuel + 1, env, (c, blk) :: rest, elseBlk => do
    let (code, env') ← executeStmt orac fuel env c
    if code = 0 then runBlock orac fuel env' 0 blk
    else ifConds orac fuel env' rest elseBlk

/-- A plain statement block (`shell.py:491-495`, `499-502`): no nested
collection, `last_exit_code` starts at 0. -/
def runBlock (orac : ExecOracles) : Nat → Env → Int → List String → Option (Int × Env)
  | 0, _, _, _ => none
  | _ + 1, env, last, [] => some (last, env)
  | fuel + 1, env, _, cmd :: rest => do
    let (code, env') ← executeStmt orac fuel env cmd
    runBlock orac fuel env' code rest

end

/-! ### The REPL statement step (`shell.py:1074-1167`) -/

/-- The for-loop line collection of the REPL (`shell.py:1080-1093`):
depth-tracked, terminated by the matching `done`, tolerant of exhausted
input (Ctrl-D). -/
def replCollectFor : Nat → List String → List String
  | _, [] => []
  | depth, l :: rest =>
    let s := pyStrip l
    if pyStartsWith s "for " then l :: replCollectFor (depth + 1) rest
    else if s = "done" then
      if depth = 1 then [l]
      else l :: replCollectFor (depth - 1) rest
    else l :: replCollectFor depth rest

/-- The if-statement line collection of the REPL (`shell.py:1110-1117`):
up to the first `fi`, no depth tracking. -/
def replCollectIf : List String → List String
  | [] => []
  | l :: rest => if pyStrip l = "fi" then [l] else l :: replCollectIf rest

/-- One REPL statement (`shell.py:1074-1167`): run `execute`; on `-997`
collect a for loop from the continuation lines, run it and store its
exit code in `env['?']`; on `-998` the same for an if statement; on
`-999` re-parse for a here-doc delimiter — `parse_redirection` never
produces one, so `env['?']` is left unchanged; otherwise store the exit
code.  `contLines` are the lines the user would type at the continuation
prompts. -/
def replStep (orac : ExecOracles) (fuel : Nat) (env : Env) (command : String)
    (contLines : List String) : Option Env := do
  let (code, env1) ← executeStmt orac fuel env command
  if code = -997 then do
    let forLines := command :: replCollectFor 1 contLines
    let (code2, env2) ← executeForLoop orac fuel env1 forLines
    some (dictSet env2 "?" (toString code2))
  else if code = -998 then do
    let ifLines := command :: replCollectIf contLines
    let (code2, env2) ← executeIfStatement orac fuel env1 ifLines
    some (dictSet env2 "?" (toString code2))
  else if code = -999 then
    some env1
  else
    some (dictSet env1 "?" (toString code))

/-- The spec's invariant on `env['?']`: a valid non-negative decimal
integer literal. -/
def isNonNegDecimal (s : String) : Bool :=
  s ≠ "" && s.data.all Char.isDigit

/-! ## Specification-side definitions

These follow the claims' words rather than the code; the refinement
theorems below compare them with the embedded source functions. -/

/-- Claim C3's description of an overwrite chain: the first target
receives the captured output, each later target receives the server's
response to the previous write. -/
def chainThread (resp : String → String → String) (cwd : String) :
    String → List String → List (String × String)
  | _, [] => []
  | content, a :: rest =>
    let p := pfsResolvePath cwd a
    (p, content) :: chainThread resp cwd (resp p content) rest

/-- Every intermediate write of the chain gets a non-empty response
(the final one may answer anything). -/
def chainLive (resp : String → String → String) (cwd : String) :
    String → List String → Bool
  | _, [] => true
  | content, a :: rest =>
    let p := pfsResolvePath cwd a
    (rest.isEmpty || resp p content ≠ "") && chainLive resp cwd (resp p content) rest

/-- Claim C10's description of one pipeline segment: a blank segment
contributes nothing, any other contributes its first token as the
command and the remaining tokens as arguments (no segment is an
error). -/
def stageOfSegment (part : String) : Option (String × List String) :=
  let p := pyStrip part
  if p = "" then none
  else
    match segTokens p with
    | [] => none
    | t :: ts => some (t, ts)

/-- Claim C5's write-mode sequence: the first write honors the
redirection's mode, every subsequent write appends. -/
def bridgeFlags (mode : String) : List String → List Bool
  | [] => []
  | _ :: cs => (mode = "append") :: cs.map (fun _ => true)

/-- The command line obtained by joining segments with `|`. -/
def joinPipe (ss : List String) : String :=
  ⟨List.intercalate ['|'] (ss.map String.data)⟩

/-- A command line carrying a backtick substitution (the line
`echo [backtick]boom[backtick] ok`, spelled out character by
character). -/
def btickLine : String :=
  ⟨['e', 'c', 'h', 'o', ' ', btickChar, 'b', 'o', 'o', 'm', btickChar, ' ', 'o', 'k']⟩

/-! ## Theorems: string splitting -/

theorem splitChar_ne_nil (sep : Char) (l : List Char) : splitChar sep l ≠ [] := by
  cases l with
  | nil => simp [splitChar]
  | cons c cs =>
    simp only [splitChar]
    split
    · simp
    · cases splitChar sep cs <;> simp

/-- Elements produced by `splitChar` never contain the separator. -/
theorem splitChar_not_mem (sep : Char) (l : List Char) :
    ∀ x ∈ splitChar sep l, sep ∉ x := by
  induction l with
  | nil => intro x hx; simp [splitChar] at hx; simp [hx]
  | cons c cs ih =>
    intro x hx
    simp only [splitChar] at hx
    by_cases hc : c = sep
    · simp [hc] at hx
      rcases hx with h | h
      · simp [h]
      · exact ih x h
    · simp [hc] at hx
      rcases hcs : splitChar sep cs with _ | ⟨t, ts⟩
      · exact absurd hcs (splitChar_ne_nil sep cs)
      · rw [hcs] at hx
        simp at hx
        rcases hx with h | h
        · subst h
          have ht : sep ∉ t := ih t (by rw [hcs]; simp)
          simp [ht]
          exact fun h' => hc h'.symm
        · exact ih x (by rw [hcs]; simp [h])

/-- A separator-free list splits to itself. -/
theorem splitChar_of_not_mem (sep : Char) :
    ∀ (p : List Char), sep ∉ p → splitChar sep p = [p] := by
  intro p
  induction p with
  | nil => intro _; simp [splitChar]
  | cons c cs ih =>
    intro hp
    have hc : ¬ c = sep := by intro h; exact hp (by simp [h])
    have hcs : sep ∉ cs := by intro h; exact hp (by simp [h])
    simp only [splitChar, if_neg hc]
    rw [ih hcs]

/-- Splitting distributes over a separator-free block followed by the
separator. -/
theorem splitChar_append_sep (sep : Char) :
    ∀ (p rest : List Char), sep ∉ p →
      splitChar sep (p ++ sep :: rest) = p :: splitChar sep rest := by
  intro p rest
  induction p with
  | nil => intro _; simp [splitChar]
  | cons c cs ih =>
    intro hp
    have hc : ¬ c = sep := by intro h; exact hp (by simp [h])
    have hcs : sep ∉ cs := by intro h; exact hp (by simp [h])
    simp only [List.cons_append, splitChar, if_neg hc, List.append_eq]
    rw [ih hcs]

/-- `splitChar` is a left inverse of intercalating with the separator,
for non-empty part lists whose parts avoid the separator. -/
theorem splitChar_intercalate (sep : Char) :
    ∀ (parts : List (List Char)), parts ≠ [] → (∀ x ∈ parts, sep ∉ x) →
      splitChar sep (List.intercalate [sep] parts) = parts := by
  intro parts
  induction parts with
  | nil => intro h; exact absurd rfl h
  | cons p ps ih =>
    intro _ hmem
    have hp : sep ∉ p := hmem p (by simp)
    cases ps with
    | nil =>
      have : List.intercalate [sep] [p] = p := by
        simp [List.intercalate, List.intersperse]
      rw [this, splitChar_of_not_mem sep p hp]
    | cons q qs =>
      have hrest : splitChar sep (List.intercalate [sep] (q :: qs)) = q :: qs :=
        ih (by simp) (fun x hx => hmem x (by simp [hx]))
      have hjoin : List.intercalate [sep] (p :: q :: qs)
          = p ++ sep :: List.intercalate [sep] (q :: qs) := by
        simp [List.intercalate, List.intersperse]
      rw [hjoin, splitChar_append_sep sep p _ hp, hrest]

theorem normComps_clean (k : Nat) (hk : k ≠ 0) :
    ∀ (comps acc : List (List Char)),
      (∀ x ∈ acc, CleanComp x) → (∀ x ∈ comps, '/' ∉ x) →
      ∀ x ∈ normComps k acc comps, CleanComp x := by
  intro comps
  induction comps with
  | nil =>
    intro acc hacc _ x hx
    simp only [normComps, List.mem_reverse] at hx
    exact hacc x hx
  | cons comp rest ih =>
    intro acc hacc hcomps x hx
    have hrest : ∀ x ∈ rest, '/' ∉ x := fun x hx => hcomps x (by simp [hx])
    simp only [normComps] at hx
    by_cases h1 : comp = [] ∨ comp = ['.']
    · rw [if_pos h1] at hx
      exact ih acc hacc hrest x hx
    · rw [if_neg h1] at hx
      push_neg at h1
      by_cases h2 : comp ≠ ['.', '.'] ∨ (k = 0 ∧ acc = []) ∨ acc.head? = some ['.', '.']
      · rw [if_pos h2] at hx
        have hcompclean : CleanComp comp := by
          refine ⟨h1.1, h1.2, ?_, hcomps comp (by simp)⟩
          rcases h2 with h | ⟨hk0, _⟩ | hhd
          · exact h
          · exact absurd hk0 hk
          · cases acc with
            | nil => simp at hhd
            | cons a as =>
              simp at hhd
              exact absurd hhd (hacc a (by simp)).2.2.1
        refine ih (comp :: acc) ?_ hrest x hx
        intro y hy
        rcases List.mem_cons.mp hy with h | h
        · exact h ▸ hcompclean
        · exact hacc y h
      · rw [if_neg h2] at hx
        cases acc with
        | nil => exact ih [] (by simp) hrest x hx
        | cons a as =>
          exact ih as (fun y hy => hacc y (by simp [hy])) hrest x hx

/-- For clean components the loop appends every component verbatim. -/
theorem normComps_of_clean (k : Nat) :
    ∀ (comps acc : List (List Char)),
      (∀ x ∈ comps, x ≠ [] ∧ x ≠ ['.'] ∧ x ≠ ['.', '.']) →
      normComps k acc comps = acc.reverse ++ comps := by
  intro comps
  induction comps with
  | nil => intro acc _; simp [normComps]
  | cons comp rest ih =>
    intro acc hcomps
    obtain ⟨h1, h2, h3⟩ := hcomps comp (by simp)
    have hrest : ∀ x ∈ rest, x ≠ [] ∧ x ≠ ['.'] ∧ x ≠ ['.', '.'] :=
      fun x hx => hcomps x (by simp [hx])
    simp only [normComps]
    rw [if_neg (by simp [h1, h2]), if_pos (Or.inl h3), ih (comp :: acc) hrest]
    simp

/-- Skipping a leading empty component. -/
theorem normComps_empty_cons (k : Nat) (acc rest : List (List Char)) :
    normComps k acc ([] :: rest) = normComps k acc rest := by
  simp [normComps]

/-- Characterization of `normpath` on an absolute input: one or two
leading slashes followed by clean components. -/
theorem normpathL_abs_shape (l : List Char) (h : l.take 1 = ['/']) :
    ∃ k nc, (k = 1 ∨ k = 2) ∧
      normpathL l = List.replicate k '/' ++ List.intercalate ['/'] nc ∧
      ∀ x ∈ nc, CleanComp x := by
  have hl : l ≠ [] := by intro he; rw [he] at h; simp at h
  have hk : initialSlashes l = 1 ∨ initialSlashes l = 2 := by
    unfold initialSlashes
    rw [if_pos h]
    split <;> simp
  have hkne : initialSlashes l ≠ 0 := by rcases hk with h | h <;> simp [h]
  refine ⟨initialSlashes l, normComps (initialSlashes l) [] (splitChar '/' l), hk, ?_, ?_⟩
  · unfold normpathL
    rw [if_neg hl]
    have hrep : List.replicate (initialSlashes l) '/' ≠ ([] : List Char) := by
      rcases hk with h | h <;> simp [h]
    rw [if_neg (by simp [hrep])]
  · exact normComps_clean _ hkne _ [] (by simp) (splitChar_not_mem '/' l)

/-- Rebuilding the normalized form and normalizing again is the
identity: `normpath` is idempotent on absolute paths. -/
theorem normpathL_fixpoint (k : Nat) (hk : k = 1 ∨ k = 2) (nc : List (List Char))
    (hnc : ∀ x ∈ nc, CleanComp x) :
    normpathL (List.replicate k '/' ++ List.intercalate ['/'] nc)
      = List.replicate k '/' ++ List.intercalate ['/'] nc := by
  set l := List.replicate k '/' ++ List.intercalate ['/'] nc with hl
  have hlk : l ≠ [] := by
    intro he
    rcases hk with h | h <;> simp [hl, h] at he
  have hsplit : splitChar '/' l = List.replicate k [] ++ splitChar '/' (List.intercalate ['/'] nc) := by
    rcases hk with h | h
    · subst h; simp [hl, splitChar, List.replicate]
    · subst h; simp [hl, splitChar, List.replicate]
  have hsplit2 : splitChar '/' (List.intercalate ['/'] nc) = if nc = [] then [[]] else nc := by
    cases hn : nc with
    | nil => simp [List.intercalate, List.intersperse, splitChar]
    | cons a as =>
      rw [if_neg (by simp)]
      exact splitChar_intercalate '/' (a :: as) (by simp)
        (fun x hx => ((hn ▸ hnc) x hx).2.2.2)
  have hhead : ∀ x ∈ (if nc = [] then ([[]] : List (List Char)) else nc),
      x = [] ∨ x.take 1 ≠ ['/'] := by
    intro x hx
    split at hx
    · simp at hx; simp [hx]
    · right
      obtain ⟨hne, _, _, hslash⟩ := hnc x hx
      cases x with
      | nil => simp at hne
      | cons c cs =>
        have : c ≠ '/' := by intro h; exact hslash (by simp [h])
        simp [List.take, this]
  -- initial slashes of the rebuilt path
  have hinit : initialSlashes l = k := by
    have hfirst : ∀ (rest : List Char), rest = List.intercalate ['/'] nc →
        (rest = [] ∨ rest.take 1 ≠ ['/']) := by
      intro rest hrest
      cases hn : nc with
      | nil => left; simp [hrest, hn, List.intercalate, List.intersperse]
      | cons a as =>
        obtain ⟨hne, _, _, hslash⟩ := hnc a (by rw [hn]; simp)
        right
        rw [hrest, hn]
        have : List.intercalate ['/'] (a :: as) = a ++ List.intercalate ['/'] as ∨
            List.intercalate ['/'] (a :: as) = a ++ '/' :: List.intercalate ['/'] as := by
          cases as with
          | nil => left; simp [List.intercalate, List.intersperse]
          | cons b bs => right; simp [List.intercalate, List.intersperse]
        cases a with
        | nil => exact absurd rfl hne
        | cons c cs =>
          have hc : c ≠ '/' := by intro h; exact hslash (by simp [h])
          rcases this with h | h <;> rw [h] <;> simp [List.take, hc]
    have h1 := hfirst _ rfl
    rcases hk with h | h
    · subst h
      unfold initialSlashes
      rcases h1 with h1 | h1
      · simp [hl, h1, List.replicate]
      · cases hrest : List.intercalate ['/'] nc with
        | nil => simp [hl, hrest, List.replicate]
        | cons c cs =>
          have hc : c ≠ '/' := by
            rw [hrest] at h1; simp [List.take] at h1; exact h1
          simp [hl, hrest, List.replicate, List.take, hc]
    · subst h
      unfold initialSlashes
      rcases h1 with h1 | h1
      · simp [hl, h1, List.replicate]
      · cases hrest : List.intercalate ['/'] nc with
        | nil => simp [hl, hrest, List.replicate]
        | cons c cs =>
          have hc : c ≠ '/' := by
            rw [hrest] at h1; simp [List.take] at h1; exact h1
          simp [hl, hrest, List.replicate, List.take, hc]
  -- components after re-splitting are skipped empties plus nc
  have hcomps : normComps k [] (splitChar '/' l) = nc := by
    rw [hsplit, hsplit2]
    have hskip : ∀ (m : Nat) (rest : List (List Char)),
        normComps k [] (List.replicate m [] ++ rest) = normComps k [] rest := by
      intro m
      induction m with
      | zero => intro rest; simp
      | succ n ihm =>
        intro rest
        rw [List.replicate_succ, List.cons_append, normComps_empty_cons]
        exact ihm rest
    split
    · rename_i hn
      rw [hskip, normComps_empty_cons, hn]
      simp [normComps]
    · rw [hskip]
      rw [normComps_of_clean k nc []
        (fun x hx => ⟨(hnc x hx).1, (hnc x hx).2.1, (hnc x hx).2.2.1⟩)]
      simp
  simp only [normpathL]
  rw [if_neg hlk, hinit, hcomps]
  rw [if_neg (by
    rcases hk with h | h <;> simp [h])]

/-! ## Theorems: dictionary operations -/

theorem dictGet_dictSet_self (d : List (String × String)) (k v : String) :
    dictGet (dictSet d k v) k = some v := by
  unfold dictSet
  split
  case isTrue h =>
    unfold dictGet
    induction d with
    | nil => simp at h
    | cons p rest ih =>
      by_cases hp : p.1 = k
      · rw [List.map_cons, if_pos hp, List.find?_cons_of_pos _ (by simp)]
        simp
      · have h' : (rest.find? (fun q => q.1 = k)).isSome := by
          rw [List.find?_cons_of_neg _ (by simp [hp])] at h
          exact h
        rw [List.map_cons, if_neg hp, List.find?_cons_of_neg _ (by simp [hp])]
        exact ih h'
  case isFalse h =>
    unfold dictGet
    induction d with
    | nil => simp
    | cons p rest ih =>
      have hp : ¬ p.1 = k := by
        intro hk
        exact h (by rw [List.find?_cons_of_pos _ (by simp [hk])]; simp)
      have h' : ¬ (rest.find? (fun q => q.1 = k)).isSome := by
        intro hk
        apply h
        rw [List.find?_cons_of_neg _ (by simp [hp])]
        exact hk
      rw [List.cons_append, List.find?_cons_of_neg _ (by simp [hp])]
      exact ih h'

theorem dictGet_dictSet_other (d : List (String × String)) (k v k' : String)
    (h : k' ≠ k) : dictGet (dictSet d k v) k' = dictGet d k' := by
  unfold dictSet
  split
  next hfound =>
    clear hfound
    unfold dictGet
    induction d with
    | nil => simp
    | cons p rest ih =>
      by_cases hp : p.1 = k
      · rw [List.map_cons, if_pos hp,
          List.find?_cons_of_neg _ (by simp [Ne.symm h]),
          List.find?_cons_of_neg _ (by simp [hp, Ne.symm h])]
        exact ih
      · rw [List.map_cons, if_neg hp]
        by_cases hp' : p.1 = k'
        · rw [List.find?_cons_of_pos _ (by simp [hp']),
            List.find?_cons_of_pos _ (by simp [hp'])]
        · rw [List.find?_cons_of_neg _ (by simp [hp']),
            List.find?_cons_of_neg _ (by simp [hp'])]
          exact ih
  next hfound =>
    clear hfound
    unfold dictGet
    induction d with
    | nil => simp [Ne.symm h]
    | cons p rest ih =>
      rw [List.cons_append]
      by_cases hp' : p.1 = k'
      · rw [List.find?_cons_of_pos _ (by simp [hp']),
          List.find?_cons_of_pos _ (by simp [hp'])]
      · rw [List.find?_cons_of_neg _ (by simp [hp']),
          List.find?_cons_of_neg _ (by simp [hp'])]
        exact ih

/-! ## Theorems: `write_file` semantics (claim C2) -/

theorem writeFile_overwrite (fs : RemoteFS) (p D : String) :
    dictGet (writeFile fs p D false) p = some D := by
  simp [writeFile, dictGet_dictSet_self]

theorem writeFile_append_existing (fs : RemoteFS) (p D E : String)
    (h : dictGet fs p = some E) :
    dictGet (writeFile fs p D true) p = some (E ++ D) := by
  simp [writeFile, dictGetD, h, dictGet_dictSet_self]

theorem writeFile_append_absent (fs : RemoteFS) (p D : String)
    (h : dictGet fs p = none) :
    dictGet (writeFile fs p D true) p = some D := by
  simp [writeFile, dictGetD, h, dictGet_dictSet_self]

theorem writeFile_frame (fs : RemoteFS) (p D : String) (append : Bool)
    (q : String) (h : q ≠ p) :
    dictGet (writeFile fs p D append) q = dictGet fs q := by
  unfold writeFile
  split <;> simp [dictGet_dictSet_other _ _ _ _ h]

/-! ## Theorems: the pfs-shell redirection chain -/

/-- A single redirect always performs exactly its own write (whatever
the response), never aborts, and leaves the file system at
`dictSet fs p w`. -/
theorem applyChain_single (resp : String → String → String) (cwd : String)
    (fs : RemoteFS) (cur : String) (r : PfsRedirect) :
    (applyChain resp cwd fs cur [r]).1
        = dictSet fs (pfsResolvePath cwd r.path)
            (chainWriteContent fs (pfsResolvePath cwd r.path) cur r.append) ∧
    (applyChain resp cwd fs cur [r]).2.1
        = [(pfsResolvePath cwd r.path,
            chainWriteContent fs (pfsResolvePath cwd r.path) cur r.append)] ∧
    (applyChain resp cwd fs cur [r]).2.2.1 = false := by
  refine ⟨?_, ?_, ?_⟩ <;>
    · simp only [applyChain]
      split <;> simp

/-- File-system frame of the chain: paths never written keep their
content. -/
theorem applyChain_frame (resp : String → String → String) (cwd : String) :
    ∀ (reds : List PfsRedirect) (fs : RemoteFS) (cur : String) (q : String),
      q ∉ ((applyChain resp cwd fs cur reds).2.1).map Prod.fst →
      dictGet (applyChain resp cwd fs cur reds).1 q = dictGet fs q := by
  intro reds
  induction reds with
  | nil => intro fs cur q _; simp [applyChain]
  | cons r rest ih =>
    intro fs cur q hq
    simp only [applyChain] at hq ⊢
    set p := pfsResolvePath cwd r.path with hp
    set w := chainWriteContent fs p cur r.append with hw
    by_cases hresp : ¬ resp p w = ""
    · rw [if_pos hresp] at hq ⊢
      rcases hch : applyChain resp cwd (dictSet fs p w) (resp p w) rest with ⟨fs2, log2, ab2, fin2⟩
      simp only [List.map_cons, List.mem_cons] at hq ⊢
      push_neg at hq
      have hframe := ih (dictSet fs p w) (resp p w) q hq.2
      rw [hch] at hframe
      simp only [] at hframe
      rw [hframe]
      exact dictGet_dictSet_other fs p w q hq.1
    · rw [if_neg hresp] at hq ⊢
      by_cases hrest : rest ≠ []
      · rw [if_pos hrest] at hq ⊢
        simp only [List.map_cons, List.map_nil, List.mem_singleton] at hq
        exact dictGet_dictSet_other fs p w q hq
      · rw [if_neg hrest] at hq ⊢
        simp only [List.map_cons, List.map_nil, List.mem_singleton] at hq
        exact dictGet_dictSet_other fs p w q hq

/-- Overwrite chains with live responses follow the claimed threading:
the log of `applyChain` is exactly `chainThread`, and the chain does not
abort. -/
theorem applyChain_thread (resp : String → String → String) (cwd : String) :
    ∀ (paths : List String) (fs : RemoteFS) (content : String),
      chainLive resp cwd content paths = true →
      (applyChain resp cwd fs content (paths.map (fun a => ⟨a, false⟩))).2.1
          = chainThread resp cwd content paths ∧
      (applyChain resp cwd fs content (paths.map (fun a => ⟨a, false⟩))).2.2.1 = false := by
  intro paths
  induction paths with
  | nil => intro fs content _; simp [applyChain, chainThread]
  | cons a rest ih =>
    intro fs content hlive
    simp only [chainLive, Bool.and_eq_true, Bool.or_eq_true] at hlive
    obtain ⟨hhd, htl⟩ := hlive
    simp only [List.map_cons, applyChain, chainThread]
    have hwc : chainWriteContent fs (pfsResolvePath cwd a) content false = content := rfl
    rw [hwc]
    by_cases hresp : ¬ resp (pfsResolvePath cwd a) content = ""
    · rw [if_pos hresp]
      rcases hch : applyChain resp cwd (dictSet fs (pfsResolvePath cwd a) content)
          (resp (pfsResolvePath cwd a) content) (rest.map (fun a => ⟨a, false⟩))
        with ⟨fs2, log2, ab2, fin2⟩
      have := ih (dictSet fs (pfsResolvePath cwd a) content)
        (resp (pfsResolvePath cwd a) content) htl
      rw [hch] at this
      simp only [] at this ⊢
      simp [this.1, this.2]
    · rw [if_neg hresp]
      push_neg at hresp
      rcases hhd with hempty | hne
      · have : rest = [] := by simpa using hempty
        subst this
        simp [chainThread]
      · exact absurd hresp (by simpa using hne)

/-- C2: the claim as stated fails on the pfs-shell redirection handler:
an overwrite redirection whose captured output is empty performs no
write at all, so a file holding `"OLD"` keeps `"OLD"` where the claim
demands it be overwritten with the (empty) output. -/
theorem c2_empty_overwrite_counterexample :
    dictGet (applyRedirections (fun _ _ => "resp") "/" [("/f", "OLD")] ""
        [⟨"/f", false⟩] true).1 "/f" = some "OLD" ∧
    (some "OLD" : Option String) ≠ some "" := by
  constructor
  · decide
  · decide

/-- Projection helper: the file system a redirection chain leaves
behind. -/
theorem applyRedirections_fst (resp : String → String → String) (cwd : String)
    (fs : RemoteFS) (content : String) (reds : List PfsRedirect) (isLast : Bool) :
    (applyRedirections resp cwd fs content reds isLast).1
      = if content = "" then fs else (applyChain resp cwd fs content reds).1 := by
  unfold applyRedirections
  split
  · rfl
  · rcases h : applyChain resp cwd fs content reds with ⟨a, b, c, d⟩
    simp

/-- C2 (amended): `AGFSFileSystem.write_file` gives the claimed
semantics unconditionally — `>` overwrites with `D`, `>>` appends to the
current content and behaves as overwrite on an absent file, and writing
`D` with `>` then `D'` with `>>` leaves `D ++ D'`; the pfs-shell
redirection handler gives the same guarantees provided the captured
output is non-empty (an empty captured output skips the write). -/
theorem c2_redirection_semantics :
    (∀ (fs : RemoteFS) (p D : String), dictGet (writeFile fs p D false) p = some D) ∧
    (∀ (fs : RemoteFS) (p D E : String), dictGet fs p = some E →
      dictGet (writeFile fs p D true) p = some (E ++ D)) ∧
    (∀ (fs : RemoteFS) (p D : String), dictGet fs p = none →
      dictGet (writeFile fs p D true) p = some D) ∧
    (∀ (fs : RemoteFS) (p D Dp : String),
      dictGet (writeFile (writeFile fs p D false) p Dp true) p = some (D ++ Dp)) ∧
    (∀ (resp : String → String → String) (cwd : String) (fs : RemoteFS) (a D Dp : String),
      D ≠ "" →
      dictGet (applyRedirections resp cwd
          (applyRedirections resp cwd fs D [⟨a, false⟩] true).1 Dp [⟨a, true⟩] true).1
        (pfsResolvePath cwd a) = some (D ++ Dp)) := by
  refine ⟨writeFile_overwrite, writeFile_append_existing, writeFile_append_absent, ?_, ?_⟩
  · intro fs p D Dp
    exact writeFile_append_existing _ p Dp D (writeFile_overwrite fs p D)
  · intro resp cwd fs a D Dp hD
    set p := pfsResolvePath cwd a with hp
    set fs1 := (applyRedirections resp cwd fs D [⟨a, false⟩] true).1 with hfs1
    have h1 : dictGet fs1 p = some D := by
      rw [hfs1, applyRedirections_fst, if_neg hD,
        (applyChain_single resp cwd fs D ⟨a, false⟩).1]
      have := dictGet_dictSet_self fs p (chainWriteContent fs p D false)
      simpa [chainWriteContent] using this
    by_cases hDp : Dp = ""
    · subst hDp
      rw [applyRedirections_fst, if_pos rfl]
      simpa using h1
    · rw [applyRedirections_fst, if_neg hDp,
        (applyChain_single resp cwd fs1 Dp ⟨a, true⟩).1]
      rw [show chainWriteContent fs1 p Dp true = D ++ Dp from by
        unfold chainWriteContent
        rw [if_pos rfl, h1]]
      exact dictGet_dictSet_self _ _ _

theorem c2_redirection_semantics_witness :
    dictGet (writeFile [] "/t/a.txt" "one" false) "/t/a.txt" = some "one" ∧
    dictGet (writeFile [("/q", "E")] "/q" "D" true) "/q" = some "ED" ∧
    dictGet (writeFile [] "/q" "D" true) "/q" = some "D" ∧
    dictGet (writeFile (writeFile [] "/t/a.txt" "one" false) "/t/a.txt" "two" true)
      "/t/a.txt" = some "onetwo" ∧
    dictGet (applyRedirections (fun _ _ => "") "/"
        (applyRedirections (fun _ _ => "") "/" [] "A" [⟨"f", false⟩] true).1
        "B" [⟨"f", true⟩] true).1 (pfsResolvePath "/" "f") = some "AB" :=
  ⟨c2_redirection_semantics.1 [] "/t/a.txt" "one",
   c2_redirection_semantics.2.1 [("/q", "E")] "/q" "D" "E" (by decide),
   c2_redirection_semantics.2.2.1 [] "/q" "D" (by decide),
   c2_redirection_semantics.2.2.2.1 [] "/t/a.txt" "one" "two",
   c2_redirection_semantics.2.2.2.2 (fun _ _ => "") "/" [] "f" "A" "B" (by decide)⟩

/-- C3: the claim as stated fails when the captured output is empty: on
`cmd > a > b` with empty output nothing is written to `a` at all (the
write log is empty and both files keep their prior absence), where the
claim demands the captured output be written to `a`. -/
theorem c3_empty_content_counterexample :
    (applyRedirections (fun _ _ => "resp") "/" [] "" [⟨"a", false⟩, ⟨"b", false⟩] true).2.1
        = [] ∧
    dictGet (applyRedirections (fun _ _ => "resp") "/" [] ""
        [⟨"a", false⟩, ⟨"b", false⟩] true).1 "/a" = none := by
  constructor
  · decide
  · decide

/-- C3 (amended): provided the stage's captured output is non-empty (an
empty captured output skips the whole chain), chained output
redirections behave as claimed: the output is written to the first
target and each later target receives the previous write's response; an
empty response from an intermediate write aborts the chain with a
diagnostic, leaving every later (distinct) target untouched; an empty
response on the final redirect is accepted. -/
theorem c3_chain_semantics :
    (∀ (resp : String → String → String) (cwd : String) (fs : RemoteFS)
        (content : String) (paths : List String),
      content ≠ "" → chainLive resp cwd content paths = true →
      (applyRedirections resp cwd fs content (paths.map (fun a => ⟨a, false⟩)) false).2.1
          = chainThread resp cwd content paths ∧
      (applyRedirections resp cwd fs content
          (paths.map (fun a => ⟨a, false⟩)) false).2.2.1 = false) ∧
    (∀ (resp : String → String → String) (cwd : String) (fs : RemoteFS)
        (content : String) (r : PfsRedirect) (rest : List PfsRedirect) (isLast : Bool),
      content ≠ "" → rest ≠ [] →
      resp (pfsResolvePath cwd r.path)
          (chainWriteContent fs (pfsResolvePath cwd r.path) content r.append) = "" →
      (applyRedirections resp cwd fs content (r :: rest) isLast).2.2.1 = true ∧
      (applyRedirections resp cwd fs content (r :: rest) isLast).2.1
          = [(pfsResolvePath cwd r.path,
              chainWriteContent fs (pfsResolvePath cwd r.path) content r.append)] ∧
      (applyRedirections resp cwd fs content (r :: rest) isLast).2.2.2 = none ∧
      ∀ q ∈ rest, pfsResolvePath cwd q.path ≠ pfsResolvePath cwd r.path →
        dictGet (applyRedirections resp cwd fs content (r :: rest) isLast).1
            (pfsResolvePath cwd q.path)
          = dictGet fs (pfsResolvePath cwd q.path)) ∧
    (∀ (resp : String → String → String) (cwd : String) (fs : RemoteFS)
        (content : String) (r : PfsRedirect),
      content ≠ "" →
      resp (pfsResolvePath cwd r.path)
          (chainWriteContent fs (pfsResolvePath cwd r.path) content r.append) = "" →
      (applyRedirections resp cwd fs content [r] false).2.2.1 = false ∧
      (applyRedirections resp cwd fs content [r] false).2.2.2
          = some (chainWriteContent fs (pfsResolvePath cwd r.path) content r.append)) := by
  refine ⟨?_, ?_, ?_⟩
  · intro resp cwd fs content paths hc hlive
    unfold applyRedirections
    rw [if_neg hc]
    have := applyChain_thread resp cwd paths fs content hlive
    exact ⟨this.1, this.2⟩
  · intro resp cwd fs content r rest isLast hc hrest hresp
    unfold applyRedirections
    rw [if_neg hc]
    simp only [applyChain]
    rw [if_neg (by simpa using hresp), if_pos hrest]
    refine ⟨rfl, rfl, rfl, ?_⟩
    intro q _ hq
    exact dictGet_dictSet_other fs _ _ _ hq
  · intro resp cwd fs content r hc hresp
    unfold applyRedirections
    rw [if_neg hc]
    simp only [applyChain]
    rw [if_neg (by simpa using hresp), if_neg (by simp)]
    exact ⟨rfl, rfl⟩

theorem c3_chain_semantics_witness :
    ((applyRedirections (fun _ _ => "ok") "/" [] "A" [⟨"f1", false⟩, ⟨"f2", false⟩] false).2.1
        = chainThread (fun _ _ => "ok") "/" "A" ["f1", "f2"] ∧
      (applyRedirections (fun _ _ => "ok") "/" [] "A"
          [⟨"f1", false⟩, ⟨"f2", false⟩] false).2.2.1 = false) ∧
    ((applyRedirections (fun _ _ => "") "/" [] "A"
        [⟨"f1", false⟩, ⟨"f2", false⟩] true).2.2.1 = true ∧
      dictGet (applyRedirections (fun _ _ => "") "/" [] "A"
          [⟨"f1", false⟩, ⟨"f2", false⟩] true).1 (pfsResolvePath "/" "f2") = none) ∧
    (applyRedirections (fun _ _ => "") "/" [] "A" [⟨"f1", false⟩] false).2.2.2
        = some "A" := by
  have h1 := c3_chain_semantics.1 (fun _ _ => "ok") "/" [] "A" ["f1", "f2"]
    (by decide) (by decide)
  have h2 := c3_chain_semantics.2.1 (fun _ _ => "") "/" [] "A" ⟨"f1", false⟩
    [⟨"f2", false⟩] true (by decide) (by decide) (by decide)
  have h3 := c3_chain_semantics.2.2 (fun _ _ => "") "/" [] "A" ⟨"f1", false⟩
    (by decide) (by decide)
  refine ⟨⟨h1.1, h1.2⟩, ⟨h2.1, ?_⟩, ?_⟩
  · have := h2.2.2.2 ⟨"f2", false⟩ (by decide) (by decide)
    rw [this]
    decide
  · have := h3.2
    rw [this]
    decide

/-! ## Theorems: the REPL `?` invariant (claim C1) -/

/-- C1: the invariant fails in the code.  At the REPL, the statement
`if X=1` followed by the continuation lines `then`, `for x in a`, `fi`
ends with `env["?"] = "-997"`: the condition `X=1` succeeds, the block
command `for x in a` has no `done` so `execute` returns the internal
sentinel `-997`, `execute_if_statement` propagates it, and the `-998`
collection branch of the REPL stores it into `?` unguarded
(`shell.py:1127-1129`) — even though the normal branch deliberately
excludes sentinel codes (`shell.py:1164-1167`).  So after this statement
`?` is neither the statement's exit code nor a non-negative decimal
literal. -/
theorem c1_sentinel_reaches_env :
    replStep ⟨fun _ => "", fun _ => 0⟩ 20 [("?", "0")] "if X=1"
        ["then", "for x in a", "fi"] = some [("?", "-997"), ("X", "1")] ∧
    dictGet [("?", "-997"), ("X", "1")] "?" = some "-997" ∧
    isNonNegDecimal "-997" = false := by
  refine ⟨?_, by decide, by decide⟩
  simp [replStep, executeStmt, executeIfStatement, ifConds, runBlock, parseIfStatement,
    parseIfAux, replCollectIf, expandVariables, subCmdParen, subBacktick, subBraced,
    subSimple, replaceDollarQ, simpleMatch, bracedMatch, delimMatch, breakAt,
    stripValueQuotes, isValidVarName, dictSet, dictGet, dictGetD, pyStrip, pyStripL,
    lstripL, rstripL, isPyWS, pyStartsWith, pyEndsWith, containsWord, containsWordAux,
    isWordChar, ifFlush, rstripSemi, pyDropLeft, pyDropRight, isNameStart, isNameChar,
    bslash, squoteChar, dquoteChar, btickChar]
  decide

/-! ## Theorems: the echo round trip (claim C4) -/

/-- C4: for every argument string `X`, the pipeline `echo X | cat`
(an `echo` stage whose sole argument is `X` and a `cat` stage with no
arguments, wired exactly as `Shell.execute` builds and
`Pipeline.execute` runs them) produces exactly `X` followed by a single
newline on the final stdout, with exit code 0: `echo` joins its
arguments with single spaces and appends a newline, `cat` copies its
(non-empty) stdin buffer — the first stage's buffered stdout —
unchanged. -/
theorem c4_echo_cat_roundtrip (X : String) (fs : RemoteFS) (localStdin : List String) :
    pipelineStdout (pipelineExecute fs localStdin
        (buildProcs "/" none [("echo", [X]), ("cat", [])])).1 = X ++ "\n" ∧
    (pipelineExecute fs localStdin (buildProcs "/" none [("echo", [X]), ("cat", [])])).2
      = 0 := by
  have hbp : buildProcs "/" none [("echo", [X]), ("cat", [])] =
      [{ command := "echo", args := [X], stdinBuf := "", tag? := some .echoTag },
       { command := "cat", args := [], stdinBuf := "", tag? := some .catTag }] := rfl
  have hne : ∀ s t : String, ¬ (s ++ (t ++ "\n")) = "" := by
    intro s t h
    have := congrArg String.data h
    simp [String.data_append] at this
  have hne2 : ∀ s : String, ¬ (s ++ "\n") = "" := by
    intro s h
    have := congrArg String.data h
    simp [String.data_append] at this
  have hjoin : joinSpace [X] = X := rfl
  rw [hbp]
  simp only [pipelineExecute, pipelineRun, procExecute, runExecTag]
  simp [pipelineStdout, hjoin, hne, hne2, String.append_assoc]

/-! ## Theorems: the direct streaming bridge (claim C5) -/

theorem joinFoldl (l : List String) : ∀ init : String,
    List.foldl (· ++ ·) init l = init ++ List.foldl (· ++ ·) "" l := by
  induction l with
  | nil =>
    intro init
    apply String.ext
    simp [String.data_append]
  | cons x xs ih =>
    intro init
    simp only [List.foldl_cons]
    rw [ih (init ++ x), ih ("" ++ x)]
    apply String.ext
    simp [String.data_append]

theorem join_cons (c : String) (cs : List String) :
    String.join (c :: cs) = c ++ String.join cs := by
  simp only [String.join, List.foldl_cons]
  rw [joinFoldl cs ("" ++ c)]
  apply String.ext
  simp [String.data_append]

/-- Streaming-capable commands never change the cwd (`cat`, `grep`,
`jq` versus `cd`). -/
theorem streaming_not_cd (cmd : String) (h : supportsStreaming cmd = true) :
    changesCwd cmd = false := by
  simp only [supportsStreaming, Bool.or_eq_true, decide_eq_true_eq] at h
  rcases h with (h | h) | h <;> subst h <;> decide

/-- After the first chunk every write of the bridge appends. -/
theorem bridgeLoop_rest (path mode : String) : ∀ (chunks : List String) (fs : RemoteFS),
    (bridgeLoop fs path mode false chunks).2 = chunks.map (fun c => (c, true)) := by
  intro chunks
  induction chunks with
  | nil => intro fs; simp [bridgeLoop]
  | cons c cs ih =>
    intro fs
    simp [bridgeLoop, ih]

/-- The bridge issues exactly one write per chunk: the first carries
the redirection's mode, the rest append. -/
theorem bridgeLoop_log (fs : RemoteFS) (path mode : String) (chunks : List String) :
    (bridgeLoop fs path mode true chunks).2
      = match chunks with
        | [] => []
        | c :: cs => (c, mode = "append") :: cs.map (fun c => (c, true)) := by
  cases chunks with
  | nil => simp [bridgeLoop]
  | cons c cs => simp [bridgeLoop, bridgeLoop_rest]

theorem zip_replicate_true (cs : List String) :
    cs.zip (List.replicate cs.length true) = cs.map (fun c => (c, true)) := by
  induction cs with
  | nil => simp
  | cons c cs ih =>
    rw [List.length_cons, List.replicate_succ, List.zip_cons_cons, ih, List.map_cons]

/-- The bridge's write log pairs each chunk with its mode flag. -/
theorem bridgeLoop_zip (fs : RemoteFS) (path mode : String) (chunks : List String) :
    (bridgeLoop fs path mode true chunks).2
      = chunks.zip (bridgeFlags mode chunks) := by
  rw [bridgeLoop_log]
  cases chunks with
  | nil => simp
  | cons c cs => simp [bridgeFlags, zip_replicate_true]

theorem dictGetD_writeFile (fs : RemoteFS) (path c : String) (a : Bool) :
    dictGetD (writeFile fs path c a) path ""
      = (if a then dictGetD fs path "" else "") ++ c := by
  cases a with
  | false =>
    have := writeFile_overwrite fs path c
    simp only [dictGetD, this]
    apply String.ext
    simp [String.data_append]
  | true =>
    unfold writeFile
    simp [dictGetD, dictGet_dictSet_self]

/-- The content the bridge accumulates: prior content only when the
first write appends, then the chunk concatenation. -/
theorem bridgeLoop_content (path mode : String) : ∀ (chunks : List String) (fs : RemoteFS)
    (isFirst : Bool), chunks ≠ [] →
    dictGet (bridgeLoop fs path mode isFirst chunks).1 path
      = some ((if (mode = "append") || !isFirst then dictGetD fs path "" else "")
          ++ String.join chunks) := by
  intro chunks
  induction chunks with
  | nil => intro fs isFirst h; exact absurd rfl h
  | cons c cs ih =>
    intro fs isFirst _
    by_cases hcs : cs = []
    · subst hcs
      simp only [bridgeLoop]
      have hget : dictGet (writeFile fs path c ((mode = "append") || !isFirst)) path
          = some (dictGetD (writeFile fs path c ((mode = "append") || !isFirst)) path "") := by
        cases hb : (decide (mode = "append") || !isFirst) with
        | false =>
          simp only [writeFile, hb]
          simp [dictGetD, dictGet_dictSet_self]
        | true =>
          simp only [writeFile, hb]
          simp [dictGetD, dictGet_dictSet_self]
      rw [hget, dictGetD_writeFile]
      refine congrArg some ?_
      apply String.ext
      simp [String.data_append, String.join]
    · rcases hbr : bridgeLoop (writeFile fs path c ((mode = "append") || !isFirst))
          path mode false cs with ⟨fs2, log2⟩
      simp only [bridgeLoop, hbr]
      have := ih (writeFile fs path c ((mode = "append") || !isFirst)) false hcs
      rw [hbr] at this
      simp only [] at this
      rw [this]
      rw [dictGetD_writeFile]
      refine congrArg some ?_
      rw [join_cons]
      apply String.ext
      simp [String.data_append]

/-- What the bridge code at `shell.py:773-815` spells out (the
semantics `shellExecute` gives the construction-and-bridge path as
written, reachable only once the construction call's signature mismatch
is fixed): when a single streaming-capable stage with no arguments, a
stdout redirection and no pre-fed stdin runs, local stdin is read in
chunks and each chunk issues one remote write, the first honoring the
redirection mode and every later one appending. -/
theorem bridge_intended_semantics (st : ShellState) (chunks : List String) (cmd f : String)
    (reds : Redirs)
    (hstream : supportsStreaming cmd = true)
    (hout : reds.stdout? = some f)
    (hin : reds.stdin? = none)
    (herr : reds.stderr? = none)
    (hchunks : ∀ c ∈ chunks, c ≠ "" ∧ c.data.length ≤ 8192) :
    shellExecute st chunks [(cmd, [])] reds none
      = ({ st with fs := (bridgeLoop st.fs (resolvePath st.cwd f)
            (reds.stdoutMode?.getD "write") true chunks).1 }, 0) ∧
    (bridgeLoop st.fs (resolvePath st.cwd f) (reds.stdoutMode?.getD "write") true chunks).2
      = chunks.zip (bridgeFlags (reds.stdoutMode?.getD "write") chunks) ∧
    (chunks ≠ [] →
      dictGet (bridgeLoop st.fs (resolvePath st.cwd f)
          (reds.stdoutMode?.getD "write") true chunks).1 (resolvePath st.cwd f)
        = some ((if reds.stdoutMode?.getD "write" = "append"
                  then dictGetD st.fs (resolvePath st.cwd f) "" else "")
            ++ String.join chunks)) := by
  refine ⟨?_, bridgeLoop_zip _ _ _ _, ?_⟩
  · have hcd := streaming_not_cd cmd hstream
    have hbp : buildProcs st.cwd none [(cmd, [])]
        = [{ command := cmd, args := [], stdinBuf := "", tag? := getBuiltinTag cmd }] := by
      simp [buildProcs]
    simp only [shellExecute, hin, hout, herr, hbp, hcd]
    simp [hstream]
    rcases hbr : bridgeLoop st.fs (resolvePath st.cwd f)
        (reds.stdoutMode?.getD "write") true chunks with ⟨fs2, log2⟩
    simp [hcd]
  · intro hne
    have := bridgeLoop_content (resolvePath st.cwd f) (reds.stdoutMode?.getD "write")
      chunks st.fs true hne
    simpa using this

/-- A closed check of `bridge_intended_semantics`. -/
theorem bridge_intended_semantics_example :
    shellExecute ⟨"/", [], [], "", ""⟩ ["aa", "bb"] [("cat", [])]
        { stdout? := some "f", stdoutMode? := some "write" } none
      = (⟨"/", [("/f", "aabb")], [], "", ""⟩, 0) := by
  have h := bridge_intended_semantics ⟨"/", [], [], "", ""⟩ ["aa", "bb"] "cat" "f"
    { stdout? := some "f", stdoutMode? := some "write" } (by decide) rfl rfl rfl
    (by decide)
  rw [h.1]
  rfl

/-- C5: the streaming bridge is dead code in the staged source.  On
exactly the claim's scenario — one streaming-capable command with its
stdout redirected and no `<` redirection — the bridge's guard would
hold, but the `Process(...)` construction call at `shell.py:759-768`
passes `filesystem=`/`env=` keywords `Process.__init__`
(`process.py:10-18`) does not accept, so the call raises `TypeError`
before the bridge at `shell.py:773-815` is reached: the shell reports
the exception and performs no chunked write at all. -/
theorem c5_bridge_dead_code (st : ShellState) (chunks : List String) (cmd f : String)
    (reds : Redirs)
    (hstream : supportsStreaming cmd = true)
    (hout : reds.stdout? = some f)
    (hin : reds.stdin? = none) :
    bridgeApplies reds.stdout?.isSome 1 cmd [] none = true
    ∧ processCallRaises = true
    ∧ shellRun st chunks [(cmd, [])] reds none = Except.error typeErrorMsg := by
  have hcd := streaming_not_cd cmd hstream
  refine ⟨by simp [bridgeApplies, hout, hstream], by decide, ?_⟩
  unfold shellRun
  rw [if_neg (by simp)]
  rw [if_neg (by simp [hcd])]
  simp [hin, processCallRaises, processCallKeywords, processInitParams]

/-- Witness for C5: `cat` with stdout redirected to `/f` and two stdin
chunks pending raises the construction `TypeError` instead of
streaming. -/
theorem c5_bridge_dead_code_witness :
    bridgeApplies ({ stdout? := some "/f", stdoutMode? := some "write" } : Redirs).stdout?.isSome
        1 "cat" [] none = true
    ∧ processCallRaises = true
    ∧ shellRun ⟨"/", [], [], "", ""⟩ ["aa", "bb"] [("cat", [])]
        { stdout? := some "/f", stdoutMode? := some "write" } none
      = Except.error typeErrorMsg :=
  c5_bridge_dead_code ⟨"/", [], [], "", ""⟩ ["aa", "bb"] "cat" "/f"
    { stdout? := some "/f", stdoutMode? := some "write" } (by decide) rfl rfl

/-! ## Theorems: the cwd frame of `Shell.execute` (claim C8) -/

/-- C8: during execution of any pipeline `Session.cwd` is left
unchanged, except when the command list has exactly one stage whose
command is marked `changes_cwd` (i.e. `cd`): then, and only when the
resolved target directory exists on the server, `cwd` becomes the
resolved target (with exit code 0); when the listing fails `cwd` is
unchanged and the exit code is 1. -/
theorem c8_cwd_frame :
    (∀ (st : ShellState) (localStdin : List String)
        (commands : List (String × List String)) (reds : Redirs) (sd : Option String),
      (commands.length ≠ 1 ∨ changesCwd (commands.headD ("", [])).1 = false) →
      (shellExecute st localStdin commands reds sd).1.cwd = st.cwd) ∧
    (∀ (st : ShellState) (localStdin : List String) (cmd : String)
        (args : List String) (reds : Redirs) (sd : Option String),
      changesCwd cmd = true →
      ((resolvePath st.cwd (match args with | [] => "/" | a :: _ => a) ∈ st.dirs →
        (shellExecute st localStdin [(cmd, args)] reds sd).1.cwd
            = resolvePath st.cwd (match args with | [] => "/" | a :: _ => a) ∧
        (shellExecute st localStdin [(cmd, args)] reds sd).2 = 0) ∧
       (resolvePath st.cwd (match args with | [] => "/" | a :: _ => a) ∉ st.dirs →
        (shellExecute st localStdin [(cmd, args)] reds sd).1.cwd = st.cwd ∧
        (shellExecute st localStdin [(cmd, args)] reds sd).2 = 1))) := by
  constructor
  · intro st localStdin commands reds sd h
    unfold shellExecute
    by_cases hnil : commands = []
    · simp [hnil]
    rw [if_neg hnil]
    have hguard : ¬ (commands.length = 1 && changesCwd (commands.headD ("", [])).1)
        = true := by
      simp only [Bool.and_eq_true, decide_eq_true_eq]
      rintro ⟨h1, h2⟩
      rcases h with h | h
      · exact h h1
      · rw [h] at h2; exact Bool.false_ne_true h2
    rw [if_neg hguard]
    repeat' split
    all_goals try simp
    all_goals (repeat' split)
    all_goals try simp
  · intro st localStdin cmd args reds sd hcd
    unfold shellExecute
    rw [if_neg (by simp), if_pos (by simp [hcd])]
    constructor
    · intro hdir
      rw [if_pos (by simpa using hdir)]
      simp
    · intro hdir
      rw [if_neg (by simpa using hdir)]
      simp

theorem c8_cwd_frame_witness :
    (shellExecute ⟨"/", [], [], "", ""⟩ [] [("echo", ["hi"]), ("cat", [])] {} none).1.cwd
        = "/" ∧
    (shellExecute ⟨"/", [], ["/d"], "", ""⟩ [] [("cd", ["d"])] {} none).1.cwd = "/d" ∧
    (shellExecute ⟨"/", [], [], "", ""⟩ [] [("cd", ["nope"])] {} none).1.cwd = "/" := by
  refine ⟨c8_cwd_frame.1 ⟨"/", [], [], "", ""⟩ [] [("echo", ["hi"]), ("cat", [])] {} none
      (by decide), ?_, ?_⟩
  · exact ((c8_cwd_frame.2 ⟨"/", [], ["/d"], "", ""⟩ [] "cd" ["d"] {} none
      (by decide)).1 (by decide)).1
  · exact ((c8_cwd_frame.2 ⟨"/", [], [], "", ""⟩ [] "cd" ["nope"] {} none
      (by decide)).2 (by decide)).1

/-! ## Theorems: path resolution (claim C7) -/

theorem isPrefixOf_single_slash (l : List Char) :
    (['/'].isPrefixOf l) = true ↔ l.take 1 = ['/'] := by
  cases l with
  | nil => simp [List.isPrefixOf]
  | cons c cs =>
    simp [List.isPrefixOf]
    constructor
    · intro h; simp [h.symm]
    · intro h; simp at h; simp [h]

theorem pyStartsWith_slash (s : String) :
    pyStartsWith s "/" = true ↔ s.data.take 1 = ['/'] := by
  unfold pyStartsWith
  have : ("/" : String).data = ['/'] := rfl
  rw [this, isPrefixOf_single_slash]

/-- Normalizing an absolute path yields an absolute path. -/
theorem normpath_abs_starts (s : String) (h : pyStartsWith s "/" = true) :
    pyStartsWith (normpath s) "/" = true := by
  obtain ⟨k, nc, hk, heq, _⟩ := normpathL_abs_shape s.data ((pyStartsWith_slash s).mp h)
  rw [pyStartsWith_slash]
  show (normpathL s.data).take 1 = ['/']
  rw [heq]
  rcases hk with h1 | h1 <;> subst h1 <;> simp [List.replicate]

/-- `normpath` is idempotent on absolute paths. -/
theorem normpath_abs_idem (s : String) (h : pyStartsWith s "/" = true) :
    normpath (normpath s) = normpath s := by
  obtain ⟨k, nc, hk, heq, hclean⟩ := normpathL_abs_shape s.data ((pyStartsWith_slash s).mp h)
  apply String.ext
  show normpathL (normpathL s.data) = normpathL s.data
  rw [heq]
  exact normpathL_fixpoint k hk nc hclean

/-- A normalized absolute path is non-empty. -/
theorem normpath_abs_ne_empty (s : String) (h : pyStartsWith s "/" = true) :
    normpath s ≠ "" := by
  obtain ⟨k, nc, hk, heq, _⟩ := normpathL_abs_shape s.data ((pyStartsWith_slash s).mp h)
  intro hcon
  have : (normpath s).data = [] := by rw [hcon]
  rw [show (normpath s).data = normpathL s.data from rfl, heq] at this
  rcases hk with h1 | h1 <;> subst h1 <;> simp [List.replicate] at this

/-- Appending preserves a leading slash. -/
theorem append_take_slash (a b : String) (h : a.data.take 1 = ['/']) :
    (a ++ b).data.take 1 = ['/'] := by
  rw [String.data_append]
  cases ha : a.data with
  | nil => rw [ha] at h; simp at h
  | cons c cs =>
    rw [ha] at h
    simp at h
    simp [h]

/-- `os.path.join(cwd, p)` with an absolute `cwd` is absolute. -/
theorem pyJoin_abs (cwd p : String) (h : pyStartsWith cwd "/" = true) :
    pyStartsWith (pyJoin cwd p) "/" = true := by
  unfold pyJoin
  split
  · next hp => exact hp
  · rw [pyStartsWith_slash] at h ⊢
    split
    · exact append_take_slash cwd p h
    · have : (cwd ++ "/" ++ p) = cwd ++ ("/" ++ p) := by
        apply String.ext
        simp [String.data_append]
      rw [this]
      exact append_take_slash cwd ("/" ++ p) h

/-- `Shell.resolve_path` always yields an absolute path when the
session cwd is absolute. -/
theorem resolvePath_abs (cwd p : String) (h : pyStartsWith cwd "/" = true) :
    pyStartsWith (resolvePath cwd p) "/" = true := by
  unfold resolvePath
  split
  · exact h
  split
  · next hp => exact normpath_abs_starts p hp
  · exact normpath_abs_starts _ (pyJoin_abs cwd p h)

/-- `Shell.resolve_path` is idempotent when the session cwd is absolute
and normalized (the Session invariant). -/
theorem resolvePath_idem (cwd p : String) (h : pyStartsWith cwd "/" = true)
    (hn : normpath cwd = cwd) :
    resolvePath cwd (resolvePath cwd p) = resolvePath cwd p := by
  have habs : pyStartsWith (resolvePath cwd p) "/" = true := resolvePath_abs cwd p h
  have hne : resolvePath cwd p ≠ "" := by
    unfold resolvePath
    split
    · intro hcon
      rw [hcon] at h
      simp [pyStartsWith, List.isPrefixOf] at h
    split
    · next hp => exact normpath_abs_ne_empty p hp
    · exact normpath_abs_ne_empty _ (pyJoin_abs cwd p h)
  have hfix : normpath (resolvePath cwd p) = resolvePath cwd p := by
    unfold resolvePath
    split
    · exact hn
    split
    · next hp => exact normpath_abs_idem p hp
    · exact normpath_abs_idem _ (pyJoin_abs cwd p h)
  conv_lhs => rw [resolvePath]
  rw [if_neg hne, if_pos habs]
  exact hfix

/-- Shape of a resolved path: one or two leading slashes followed by
clean components (no `.`, `..`, empty component or stray slash). -/
theorem resolvePath_shape (cwd p : String) (habs : pyStartsWith cwd "/" = true)
    (hnorm : normpath cwd = cwd) :
    ∃ k nc, (k = 1 ∨ k = 2) ∧
      (resolvePath cwd p).data = List.replicate k '/' ++ List.intercalate ['/'] nc ∧
      ∀ x ∈ nc, CleanComp x := by
  unfold resolvePath
  split
  · obtain ⟨k, nc, hk, heq, hclean⟩ := normpathL_abs_shape cwd.data ((pyStartsWith_slash cwd).mp habs)
    refine ⟨k, nc, hk, ?_, hclean⟩
    conv_lhs => rw [← hnorm]
    exact heq
  split
  · next hp =>
    obtain ⟨k, nc, hk, heq, hclean⟩ := normpathL_abs_shape p.data ((pyStartsWith_slash p).mp hp)
    exact ⟨k, nc, hk, heq, hclean⟩
  · have hj := pyJoin_abs cwd p habs
    obtain ⟨k, nc, hk, heq, hclean⟩ :=
      normpathL_abs_shape (pyJoin cwd p).data ((pyStartsWith_slash (pyJoin cwd p)).mp hj)
    exact ⟨k, nc, hk, heq, hclean⟩

/-- The final `/.`-to-`/` fixup of `_normalize_path` preserves
absoluteness. -/
theorem slashdot_fix (m : String) (h : pyStartsWith m "/" = true) :
    pyStartsWith (if m = "/." then "/" else m) "/" = true := by
  split
  · decide
  · exact h

/-- `CommandHandler._normalize_path` always yields an absolute path. -/
theorem pfsNormalizePath_abs (path : String) :
    pyStartsWith (pfsNormalizePath path) "/" = true := by
  simp only [pfsNormalizePath]
  by_cases h : pyStartsWith (normpath path) "/" = true
  · rw [if_pos h]
    exact slashdot_fix _ h
  · rw [if_neg h]
    refine slashdot_fix _ ?_
    rw [pyStartsWith_slash]
    exact append_take_slash "/" (normpath path) (by decide)

/-- `CommandHandler._normalize_path` is idempotent on absolute paths. -/
theorem pfsNormalizePath_idem_abs (s : String) (h : pyStartsWith s "/" = true) :
    pfsNormalizePath (pfsNormalizePath s) = pfsNormalizePath s := by
  have h1 : pyStartsWith (normpath s) "/" = true := normpath_abs_starts s h
  by_cases h2 : normpath s = "/."
  · have hval : pfsNormalizePath s = "/" := by
      simp only [pfsNormalizePath]
      rw [if_pos h1, if_pos h2]
    rw [hval]
    decide
  · have hval : pfsNormalizePath s = normpath s := by
      simp only [pfsNormalizePath]
      rw [if_pos h1, if_neg h2]
    rw [hval]
    have hfix : normpath (normpath s) = normpath s := normpath_abs_idem s h
    simp only [pfsNormalizePath]
    rw [hfix, if_pos h1, if_neg h2]

/-- The raw concatenation step of `CommandHandler._resolve_path` is
absolute once the session cwd is. -/
theorem pfsResolved_abs (cwd p : String) (h : pyStartsWith cwd "/" = true) :
    pyStartsWith (if pyStartsWith p "/" then p
      else if cwd = "/" then "/" ++ p else cwd ++ "/" ++ p) "/" = true := by
  split
  · next hp => exact hp
  split
  · rw [pyStartsWith_slash]
    exact append_take_slash "/" p (by decide)
  · rw [pyStartsWith_slash]
    rw [pyStartsWith_slash] at h
    exact append_take_slash (cwd ++ "/") p (append_take_slash cwd "/" h)

/-- On an absolute argument `_resolve_path` is just `_normalize_path`. -/
theorem pfsResolvePath_abs_eq (cwd q : String) (h : pyStartsWith q "/" = true) :
    pfsResolvePath cwd q = pfsNormalizePath q := by
  simp [pfsResolvePath, h]

/-- `CommandHandler._resolve_path` always yields an absolute path. -/
theorem pfsResolvePath_starts (cwd p : String) :
    pyStartsWith (pfsResolvePath cwd p) "/" = true := by
  rw [show pfsResolvePath cwd p = pfsNormalizePath (if pyStartsWith p "/" then p
      else if cwd = "/" then "/" ++ p else cwd ++ "/" ++ p) from rfl]
  exact pfsNormalizePath_abs _

/-- `CommandHandler._resolve_path` is idempotent when the cwd is
absolute. -/
theorem pfsResolvePath_idem (cwd p : String) (habs : pyStartsWith cwd "/" = true) :
    pfsResolvePath cwd (pfsResolvePath cwd p) = pfsResolvePath cwd p := by
  have h1 : pfsResolvePath cwd p
      = pfsNormalizePath (if pyStartsWith p "/" then p
          else if cwd = "/" then "/" ++ p else cwd ++ "/" ++ p) := rfl
  rw [h1]
  rw [pfsResolvePath_abs_eq cwd _ (pfsNormalizePath_abs _)]
  exact pfsNormalizePath_idem_abs _ (pfsResolved_abs cwd p habs)

/-- C7: the "redundant separators are collapsed" part of the claim fails
on a leading double slash: `posixpath.normpath` deliberately preserves
exactly two leading slashes (POSIX implementation-defined roots), so
`resolvePath "/" "//a//b"` keeps the doubled root in both shells while
all the interior doubled slashes do collapse. -/
theorem c7_double_slash_counterexample :
    resolvePath "/" "//a//b" = "//a/b" ∧ resolvePath "/" "//a//b" ≠ "/a/b"
    ∧ pfsResolvePath "/" "//a" = "//a" := by decide

/-- C7 (amended): with the session cwd absolute and normalized (the
Session invariant), `Shell.resolve_path` yields an absolute, idempotent
result whose normalization collapses `.`, `..` and interior redundant
separators while preserving one OR two leading slashes, `..` above the
root is clamped to `/`, and `CommandHandler._resolve_path` of pfs-shell
is likewise absolute and idempotent. -/
theorem c7_resolve_properties (cwd p : String)
    (habs : pyStartsWith cwd "/" = true) (hnorm : normpath cwd = cwd) :
    pyStartsWith (resolvePath cwd p) "/" = true
    ∧ resolvePath cwd (resolvePath cwd p) = resolvePath cwd p
    ∧ (∃ k nc, (k = 1 ∨ k = 2) ∧
        (resolvePath cwd p).data = List.replicate k '/' ++ List.intercalate ['/'] nc ∧
        ∀ x ∈ nc, CleanComp x)
    ∧ resolvePath "/" "a/./b//c" = "/a/b/c"
    ∧ resolvePath "/x/y" "../../../z" = "/z"
    ∧ pyStartsWith (pfsResolvePath cwd p) "/" = true
    ∧ pfsResolvePath cwd (pfsResolvePath cwd p) = pfsResolvePath cwd p :=
  ⟨resolvePath_abs cwd p habs, resolvePath_idem cwd p habs hnorm,
    resolvePath_shape cwd p habs hnorm, by decide, by decide,
    pfsResolvePath_starts cwd p, pfsResolvePath_idem cwd p habs⟩

/-- Witness for C7 at `cwd = "/"`, `p = "../x"`. -/
theorem c7_resolve_properties_witness :
    (pyStartsWith "/" "/" = true ∧ normpath "/" = "/")
    ∧ (pyStartsWith (resolvePath "/" "../x") "/" = true
    ∧ resolvePath "/" (resolvePath "/" "../x") = resolvePath "/" "../x"
    ∧ (∃ k nc, (k = 1 ∨ k = 2) ∧
        (resolvePath "/" "../x").data = List.replicate k '/' ++ List.intercalate ['/'] nc ∧
        ∀ x ∈ nc, CleanComp x)
    ∧ resolvePath "/" "a/./b//c" = "/a/b/c"
    ∧ resolvePath "/x/y" "../../../z" = "/z"
    ∧ pyStartsWith (pfsResolvePath "/" "../x") "/" = true
    ∧ pfsResolvePath "/" (pfsResolvePath "/" "../x") = pfsResolvePath "/" "../x") :=
  ⟨⟨by decide, by decide⟩, c7_resolve_properties "/" "../x" (by decide) (by decide)⟩

/-! ## Theorems: pipeline splitting (claim C10) -/

theorem strMk_data (s : String) : String.mk s.data = s := rfl

/-- Away from the blank-line early return, `parse_pipeline` is exactly
the per-segment filter-map. -/
theorem parsePipeline_filterMap (cl : String) (h : ¬ pyStrip cl = "") :
    parsePipeline cl = (pySplitOn cl '|').filterMap stageOfSegment := by
  unfold parsePipeline
  rw [if_neg h]
  rfl

/-- A string that strips to nothing is all whitespace. -/
theorem pyStripL_nil_ws (l : List Char) (h : pyStripL l = []) :
    ∀ c ∈ l, isPyWS c = true := by
  unfold pyStripL rstripL lstripL at h
  have h2 : (l.dropWhile isPyWS).reverse.dropWhile isPyWS = [] := by
    have := congrArg List.reverse h
    simpa using this
  rw [List.dropWhile_eq_nil_iff] at h2
  intro c hc
  have hsplit : l.takeWhile isPyWS ++ l.dropWhile isPyWS = l := List.takeWhile_append_dropWhile _ _
  rcases List.mem_append.mp (by rw [hsplit]; exact hc) with hm | hm
  · exact List.mem_takeWhile_imp hm
  · exact h2 c (List.mem_reverse.mpr hm)

/-- Joining two or more segments materializes the separator. -/
theorem mem_intercalate_sep (sep : Char) (x y : List Char) (rest : List (List Char)) :
    sep ∈ List.intercalate [sep] (x :: y :: rest) := by
  show sep ∈ (List.intersperse [sep] (x :: y :: rest)).flatten
  have hx : List.intersperse [sep] (x :: y :: rest)
      = x :: [sep] :: List.intersperse [sep] (y :: rest) := rfl
  rw [hx]
  simp

theorem joinPipe_single (s : String) : joinPipe [s] = s := by
  unfold joinPipe
  simp [List.intercalate, List.intersperse, strMk_data]

/-- `str.split('|')` undoes joining with `|` when no segment contains
the separator. -/
theorem pySplitOn_joinPipe (ss : List String) (hne : ss ≠ [])
    (hp : ∀ s ∈ ss, '|' ∉ s.data) :
    pySplitOn (joinPipe ss) '|' = ss := by
  unfold pySplitOn joinPipe
  rw [show (String.mk (List.intercalate ['|'] (ss.map String.data))).data
      = List.intercalate ['|'] (ss.map String.data) from rfl]
  rw [splitChar_intercalate '|' (ss.map String.data) (by simpa using hne) ?hmem]
  case hmem =>
    intro x hx
    rw [List.mem_map] at hx
    obtain ⟨s, hs, rfl⟩ := hx
    exact hp s hs
  rw [List.map_map]
  have : (fun l => (⟨l⟩ : String)) ∘ String.data = id := funext fun s => rfl
  rw [this, List.map_id]

/-- Segment-wise description of `parse_pipeline` on a joined command
line: blank segments are dropped, the rest become stages in order. -/
theorem parsePipeline_joinPipe (ss : List String) (hp : ∀ s ∈ ss, '|' ∉ s.data) :
    parsePipeline (joinPipe ss) = ss.filterMap stageOfSegment := by
  by_cases hs : pyStrip (joinPipe ss) = ""
  · have h1 : parsePipeline (joinPipe ss) = [] := by
      unfold parsePipeline
      rw [if_pos hs]
    rw [h1]
    symm
    rw [List.filterMap_eq_nil_iff]
    intro s hmem
    have hws := pyStripL_nil_ws (joinPipe ss).data (congrArg String.data hs)
    cases ss with
    | nil => cases hmem
    | cons a as =>
      cases as with
      | nil =>
        have hsa : s = a := by simpa using hmem
        subst hsa
        rw [joinPipe_single] at hs
        unfold stageOfSegment
        simp [hs]
      | cons b bs =>
        exfalso
        have hpmem : '|' ∈ (joinPipe (a :: b :: bs)).data :=
          mem_intercalate_sep '|' a.data b.data (bs.map String.data)
        have := hws '|' hpmem
        simp [isPyWS] at this
  · have hne : ss ≠ [] := by
      intro he
      subst he
      exact hs (by decide)
    rw [parsePipeline_filterMap _ hs, pySplitOn_joinPipe ss hne hp]

/-- C10: for any list of segments joined with `|`, `parse_pipeline`
silently drops the segments that are empty or whitespace-only and turns
every remaining segment, in order, into a stage (first token the
command, rest the arguments) — never a syntax error.  In particular
`a | | b`, `| cmd` and `cmd |` parse to just the non-blank stages. -/
theorem c10_blank_segments (ss : List String) (hp : ∀ s ∈ ss, '|' ∉ s.data) :
    parsePipeline (joinPipe ss) = ss.filterMap stageOfSegment
    ∧ parsePipeline "a | | b" = [("a", []), ("b", [])]
    ∧ parsePipeline "| cmd" = [("cmd", [])]
    ∧ parsePipeline "cmd |" = [("cmd", [])] :=
  ⟨parsePipeline_joinPipe ss hp, by decide, by decide, by decide⟩

/-- Witness for C10 at the segment list `["a x ", "  ", " b y z"]`:
the blank middle segment is dropped and the two commands keep their
order and arguments. -/
theorem c10_blank_segments_witness :
    ('|' ∉ "a x ".data ∧ '|' ∉ "  ".data ∧ '|' ∉ " b y z".data)
    ∧ parsePipeline (joinPipe ["a x ", "  ", " b y z"])
        = List.filterMap stageOfSegment ["a x ", "  ", " b y z"]
    ∧ List.filterMap stageOfSegment ["a x ", "  ", " b y z"]
        = [("a", ["x"]), ("b", ["y", "z"])] :=
  ⟨by decide,
   (c10_blank_segments ["a x ", "  ", " b y z"] (by decide)).1,
   by decide⟩

/-! ## Theorems: quoting and expansion (claim C6) -/

/-- C6: the claim's single-quote half fails.  `_expand_variables` runs
its regex passes over the whole line without any quote tracking, so
`$X` inside single quotes is expanded like anywhere else: with
`env = [("X", "hello")]` the line `echo '$X'` expands to
`echo 'hello'`, not to the literal `echo '$X'`. -/
theorem c6_single_quote_counterexample :
    expandVariables (fun _ => "") [("X", "hello")] "echo '$X'" = "echo 'hello'"
    ∧ expandVariables (fun _ => "") [("X", "hello")] "echo '$X'" ≠ "echo '$X'" := by
  have h : expandVariables (fun _ => "") [("X", "hello")] "echo '$X'" = "echo 'hello'" := by
    simp [expandVariables, replaceDollarQ, subCmdParen, subBacktick, subBraced, subSimple,
      delimMatch, bracedMatch, simpleMatch, breakAt, dictGetD, dictGet, isNameStart, isNameChar,
      btickChar, lbraceChar, rbraceChar]
  exact ⟨h, by rw [h]; decide⟩

/-- C6 (amended): expansion is quote-blind.  For every substitution
oracle and environment, `$X` expands to the value of `X` (empty when
unset) inside single quotes exactly as inside double quotes; the
double-quote half of the claim does hold, and the expanded double-quoted
value is not further split — `echo "$X"` with `X = "a b"` parses to the
single stage `("echo", ["a b"])`. -/
theorem c6_quote_semantics (subst : String → String) (env : Env) :
    expandVariables subst env "echo '$X'" = "echo '" ++ dictGetD env "X" "" ++ "'"
    ∧ expandVariables subst env "echo \"$X\"" = "echo \"" ++ dictGetD env "X" "" ++ "\""
    ∧ parsePipeline (expandVariables (fun _ => "") [("X", "a b")] "echo \"$X\"")
        = [("echo", ["a b"])] := by
  refine ⟨?_, ?_, ?_⟩
  · simp [expandVariables, replaceDollarQ, subCmdParen, subBacktick, subBraced, subSimple,
      delimMatch, bracedMatch, simpleMatch, breakAt, isNameStart, isNameChar,
      btickChar, lbraceChar, rbraceChar]
    apply String.ext
    simp [String.data_append]
  · simp [expandVariables, replaceDollarQ, subCmdParen, subBacktick, subBraced, subSimple,
      delimMatch, bracedMatch, simpleMatch, breakAt, isNameStart, isNameChar,
      btickChar, lbraceChar, rbraceChar]
    apply String.ext
    simp [String.data_append]
  · have h : expandVariables (fun _ => "") [("X", "a b")] "echo \"$X\"" = "echo \"a b\"" := by
      simp [expandVariables, replaceDollarQ, subCmdParen, subBacktick, subBraced, subSimple,
        delimMatch, bracedMatch, simpleMatch, breakAt, dictGetD, dictGet, isNameStart, isNameChar,
        btickChar, lbraceChar, rbraceChar]
    rw [h]
    decide

/-! ## Theorems: command-substitution error handling (claim C9) -/

/-- C9: `_execute_command_substitution` wraps its whole body in
`try: … except Exception: return ''`, so when running the inner pipeline
raises any exception (`runPipe` always erring models that) every
substitution yields the empty string, and `$(…)` or backtick forms in a
command line are spliced out as empty text with no error message and no
exit-code report — the surrounding line survives verbatim. -/
theorem c9_substitution_error (runPipe : List (String × List String) → Except Unit String)
    (env : Env) (command : String)
    (herr : ∀ cs, runPipe cs = Except.error ()) :
    execCmdSubst runPipe command = ""
    ∧ expandVariables (execCmdSubst runPipe) env "echo $(boom) ok" = "echo  ok"
    ∧ expandVariables (execCmdSubst runPipe) env btickLine = "echo  ok" := by
  have h0 : ∀ c : String, execCmdSubst runPipe c = "" := by
    intro c
    unfold execCmdSubst
    split
    split
    · rfl
    · rw [herr]
  refine ⟨h0 command, ?_, ?_⟩
  · simp [expandVariables, replaceDollarQ, subCmdParen, subBacktick, subBraced, subSimple,
      delimMatch, bracedMatch, simpleMatch, breakAt, isNameStart, isNameChar,
      btickChar, lbraceChar, rbraceChar, h0]
  · simp [btickLine, expandVariables, replaceDollarQ, subCmdParen, subBacktick, subBraced,
      subSimple, delimMatch, bracedMatch, simpleMatch, breakAt, isNameStart, isNameChar,
      btickChar, lbraceChar, rbraceChar, h0]

/-- Witness for C9 with the always-raising pipeline runner. -/
theorem c9_substitution_error_witness :
    execCmdSubst (fun _ => Except.error ()) "x" = ""
    ∧ expandVariables (execCmdSubst (fun _ => Except.error ())) [] "echo $(boom) ok"
        = "echo  ok"
    ∧ expandVariables (execCmdSubst (fun _ => Except.error ())) [] btickLine
        = "echo  ok" :=
  c9_substitution_error (fun _ => Except.error ()) [] "x" (fun _ => rfl)

end AgfsShell
